import Mathlib

/-!
Verification development for the next-cachex cache-aside layer.

The definitions below are shallow embeddings of the TypeScript sources:

* `getFullKey`, `fetch` and its branch helpers embed
  `src/cache/createCacheHandler.ts` (the handler returned by
  `createCacheHandler`): L1 lookup, backend read, lock negotiation,
  origin invocation, cache population, stale fallback, lock release and
  the exponential-backoff poll loop of the waiter.
* `memGet`, `memSet`, `memDel`, `memLock`, `memUnlock` embed
  `MemoryCacheBackend` (the in-process reference backend).
* `redisGet` embeds `RedisCacheBackend.get` from `src/backends/redis.ts`,
  with `JSON.parse` abstracted as a partial decode function.

Time is modelled as a logical clock in milliseconds (a rational, since the
poll interval grows by the non-integral factor 1.5); every backend
round-trip is instantaneous and only the explicit sleeps of the poll loop
advance the clock.  JavaScript `undefined` is modelled by `Option`: a
fetched value is an `Option V`, with `none` playing the role of
`undefined`.  Each call produces, besides its result, the sequence of
logger events and the trace of backend operations it performed, plus a
flag recording whether the origin function was invoked.
-/

set_option maxHeartbeats 1600000

namespace NextCachex

/-- Association-list lookup, the model of `Map.get` on string keys. -/
def alistFind {α : Type} (k : String) : List (String × α) → Option α
  | [] => none
  | (k', v) :: rest => if k' = k then some v else alistFind k rest

/-- Association-list update, the model of `Map.set`: the new binding wins
and any previous binding of the key is dropped. -/
def alistInsert {α : Type} (k : String) (v : α) (l : List (String × α)) :
    List (String × α) :=
  (k, v) :: l.filter (fun p => p.1 ≠ k)

/-- Association-list removal, the model of `Map.delete`. -/
def alistErase {α : Type} (k : String) (l : List (String × α)) :
    List (String × α) :=
  l.filter (fun p => p.1 ≠ k)

/-- Embeds `getFullKey` of `createCacheHandler.ts`:
`[prefix, version, key].filter(Boolean).join(':')`.  The handler option
`prefix` is called `pfx` here because `prefix` is reserved in Lean. -/
def getFullKey (pfx version key : String) : String :=
  String.intercalate ":" (([pfx, version, key]).filter (fun s => s ≠ ""))

/-- Handler-level options of `createCacheHandler` that the fetch path
reads (backend and logger are passed separately in this model). -/
structure CacheHandlerOptions where
  pfx : String
  version : String
  fallbackToStale : Bool

/-- Per-call fetch options, already merged with the defaults.  `ttl` and
`staleTtl` are in seconds, `lockTimeout` in milliseconds, as in the
source. -/
structure CacheFetchOptions where
  ttl : Nat
  lockTimeout : Nat
  staleTtl : Nat
deriving DecidableEq

/-- Embeds `DEFAULT_FETCH_OPTIONS` of `createCacheHandler.ts`. -/
def DEFAULT_FETCH_OPTIONS : CacheFetchOptions :=
  { ttl := 300, lockTimeout := 5000, staleTtl := 3600 }

/-- A stored cache entry of `MemoryCacheBackend`: the value (possibly the
JavaScript `undefined`, i.e. `none`) and an optional expiry instant. -/
structure StoreItem (V : Type) where
  value : Option V
  expiresAt : Option ℚ
deriving DecidableEq

/-- State of `MemoryCacheBackend`: the value map and the lock map. -/
structure MemState (V : Type) where
  store : List (String × StoreItem V)
  locks : List (String × ℚ)
deriving DecidableEq

/-- Embeds `MemoryCacheBackend.get`: lazy expiry, returning undefined and
evicting when the expiry instant has passed.  The JavaScript guard
`item.expiresAt && Date.now() > item.expiresAt` checks truthiness of the
expiry, hence the `e ≠ 0` conjunct. -/
def memGet {V : Type} (now : ℚ) (key : String) (st : MemState V) :
    Option V × MemState V :=
  match alistFind key st.store with
  | none => (none, st)
  | some item =>
    match item.expiresAt with
    | some e =>
        if e ≠ 0 ∧ now > e then (none, ⟨alistErase key st.store, st.locks⟩)
        else (item.value, st)
    | none => (item.value, st)

/-- Embeds `MemoryCacheBackend.set`: `options?.ttl` is truthy only when
present and non-zero, in which case the entry expires at
`now + ttl * 1000`. -/
def memSet {V : Type} (now : ℚ) (key : String) (value : Option V)
    (ttl : Option Nat) (st : MemState V) : MemState V :=
  let expiresAt : Option ℚ :=
    match ttl with
    | some t => if t = 0 then none else some (now + t * 1000)
    | none => none
  ⟨alistInsert key ⟨value, expiresAt⟩ st.store, st.locks⟩

/-- Embeds `MemoryCacheBackend.del`. -/
def memDel {V : Type} (key : String) (st : MemState V) : MemState V :=
  ⟨alistErase key st.store, st.locks⟩

/-- Embeds `MemoryCacheBackend.lock`: fail if a yet-unexpired lock entry
exists, otherwise install a lock entry expiring at `now + ttl * 1000` and
succeed.  The whole operation is one atomic step of the model. -/
def memLock {V : Type} (now : ℚ) (key : String) (ttl : Nat)
    (st : MemState V) : Bool × MemState V :=
  let expiresAt : ℚ := now + ttl * 1000
  match alistFind key st.locks with
  | some e =>
      if e > now then (false, st)
      else (true, ⟨st.store, alistInsert key expiresAt st.locks⟩)
  | none => (true, ⟨st.store, alistInsert key expiresAt st.locks⟩)

/-- Embeds `MemoryCacheBackend.unlock`. -/
def memUnlock {V : Type} (key : String) (st : MemState V) : MemState V :=
  ⟨st.store, alistErase key st.locks⟩

/-- Abstract backend capability contract consumed by the handler
(`CacheBackend` of `src/types`): every operation may fail with a backend
error of type `ε`.  Operations receive the current clock because the
in-memory backend reads `Date.now()`. -/
structure Backend (σ V ε : Type) where
  get : σ → ℚ → String → Except ε (Option V × σ)
  set : σ → ℚ → String → Option V → Option Nat → Except ε σ
  lock : σ → ℚ → String → Nat → Except ε (Bool × σ)
  unlock : σ → ℚ → String → Except ε σ

/-- The `MemoryCacheBackend` instance of the capability contract: its
operations never throw. -/
def memB (V ε : Type) : Backend (MemState V) V ε where
  get st now key := .ok (memGet now key st)
  set st now key value ttl := .ok (memSet now key value ttl st)
  lock st now key ttl := .ok (memLock now key ttl st)
  unlock st _ key := .ok (memUnlock key st)

/-- Errors a `fetch` call can raise: a raw error thrown by the origin
function or by a backend operation (propagated with its identity intact),
a constructed `CacheBackendError`, or a constructed `CacheTimeoutError`. -/
inductive JSErr (ε : Type) where
  | raw (e : ε)
  | cacheBackendError (msg : String) (cause : Option ε)
  | cacheTimeoutError (msg : String)
deriving DecidableEq

/-- Logger events of `CacheLogEvent` in `src/types`. -/
inductive CacheLogEvent (ε : Type) where
  | hit (key : String)
  | miss (key : String)
  | lock (key : String)
  | wait (key : String)
  | error (key : String) (e : JSErr ε)
deriving DecidableEq

/-- One backend operation performed during a call, for the call trace. -/
inductive BackendCall where
  | get (key : String)
  | set (key : String)
  | lock (key : String)
  | unlock (key : String)
deriving DecidableEq

/-- An entry of the in-process L1 cache of the handler. -/
structure L1Item (V : Type) where
  value : Option V
  expiresAt : ℚ
deriving DecidableEq

/-- Everything observable about one `fetch` call: its result, the final
backend state, the final L1 cache, the logger events, the backend-call
trace and whether the origin function was invoked. -/
structure Outcome (σ V ε : Type) where
  result : Except (JSErr ε) (Option V)
  backend : σ
  l1 : List (String × L1Item V)
  events : List (CacheLogEvent ε)
  calls : List BackendCall
  originCalled : Bool

/-- The L1 lookup of `fetch`: a value is served only when an entry exists
and its expiry lies strictly in the future. -/
def l1Lookup {V : Type} (l1 : List (String × L1Item V)) (fullKey : String)
    (now : ℚ) : Option (Option V) :=
  match alistFind fullKey l1 with
  | some item => if item.expiresAt > now then some item.value else none
  | none => none

/-- Embeds the waiter poll loop of `fetch` (lock not acquired): sleep with
exponential backoff starting at 50 ms, multiplying by 1.5 up to a 500 ms
cap, re-reading the key after each sleep; a failing read is logged and
polling continues; when `lockTimeout` has elapsed the call fails with a
`CacheTimeoutError` naming the logical key and the timeout.  The proof
argument `hi` records that the interval never drops below 50 ms, which
bounds the number of iterations. -/
def pollLoop {σ V ε : Type} (B : Backend σ V ε) (key fullKey : String)
    (start : ℚ) (lockTimeout : Nat) (l1 : List (String × L1Item V))
    (interval now : ℚ) (hi : 50 ≤ interval) (st : σ)
    (events : List (CacheLogEvent ε)) (calls : List BackendCall) :
    Outcome σ V ε :=
  if h : now - start < (lockTimeout : ℚ) then
    match B.get st (now + interval) fullKey with
    | .ok (some v, st') =>
        ⟨.ok (some v), st', l1, events, calls ++ [.get fullKey], false⟩
    | .ok (none, st') =>
        pollLoop B key fullKey start lockTimeout l1
          (min (interval * (3 / 2)) 500) (now + interval)
          (le_min (by linarith) (by norm_num)) st'
          events (calls ++ [.get fullKey])
    | .error e =>
        pollLoop B key fullKey start lockTimeout l1
          (min (interval * (3 / 2)) 500) (now + interval)
          (le_min (by linarith) (by norm_num)) st
          (events ++ [.error fullKey (.raw e)]) (calls ++ [.get fullKey])
  else
    ⟨.error (.cacheTimeoutError
        ("Timeout waiting for " ++ key ++ " (" ++ toString lockTimeout ++ "ms)")),
      st, l1, events, calls, false⟩
termination_by (⌈(start + (lockTimeout : ℚ) - now) / 50⌉).toNat
decreasing_by
  all_goals
    have h50 : (0 : ℚ) < 50 := by norm_num
    have hr : 0 < start + (lockTimeout : ℚ) - now := by linarith
    have h1 : (start + (lockTimeout : ℚ) - (now + interval)) / 50 ≤
        (start + (lockTimeout : ℚ) - now) / 50 - 1 := by
      have hrw : (start + (lockTimeout : ℚ) - now) / 50 - 1 =
          (start + (lockTimeout : ℚ) - now - 50) / 50 := by ring
      rw [hrw]
      exact (div_le_div_iff_of_pos_right h50).mpr (by linarith)
    have h2 : ⌈(start + (lockTimeout : ℚ) - (now + interval)) / 50⌉ ≤
        ⌈(start + (lockTimeout : ℚ) - now) / 50⌉ - 1 := by
      calc ⌈(start + (lockTimeout : ℚ) - (now + interval)) / 50⌉
          ≤ ⌈(start + (lockTimeout : ℚ) - now) / 50 - 1⌉ := Int.ceil_le_ceil h1
        _ = ⌈(start + (lockTimeout : ℚ) - now) / 50⌉ - 1 := by
            rw [Int.ceil_sub_one]
    have h3 : 0 < ⌈(start + (lockTimeout : ℚ) - now) / 50⌉ :=
      Int.ceil_pos.mpr (div_pos hr h50)
    omega

/-- Embeds the `finally` block of the winner branch: release the lock;
a failing release is logged as an ERROR event carrying a constructed
`CacheBackendError` and is never thrown, the pending result stands. -/
def finallyUnlock {σ V ε : Type} (B : Backend σ V ε) (emsg : ε → String)
    (lockKey : String) (now : ℚ) (result : Except (JSErr ε) (Option V))
    (st : σ) (l1 : List (String × L1Item V))
    (events : List (CacheLogEvent ε)) (calls : List BackendCall) :
    Outcome σ V ε :=
  match B.unlock st now lockKey with
  | .ok st' => ⟨result, st', l1, events, calls ++ [.unlock lockKey], true⟩
  | .error ue =>
      ⟨result, st, l1,
        events ++ [.error lockKey (.cacheBackendError
          ("Failed to release lock: " ++ emsg ue) (some ue))],
        calls ++ [.unlock lockKey], true⟩

/-- Embeds the `catch` block of the winner branch: log the error, try the
stale copy when fallback is enabled and `staleTtl` is truthy, serve it
with a HIT event when present, otherwise rethrow the caught error
unchanged; then release the lock. -/
def catchPath {σ V ε : Type} (B : Backend σ V ε) (emsg : ε → String)
    (cfg : CacheHandlerOptions) (opts : CacheFetchOptions)
    (fullKey lockKey : String) (e : ε) (st : σ)
    (l1 : List (String × L1Item V)) (now : ℚ)
    (events : List (CacheLogEvent ε)) (calls : List BackendCall) :
    Outcome σ V ε :=
  if cfg.fallbackToStale = true ∧ opts.staleTtl ≠ 0 then
    match B.get st now ("stale:" ++ fullKey) with
    | .ok (some sv, st') =>
        finallyUnlock B emsg lockKey now (.ok (some sv)) st' l1
          ((events ++ [.error fullKey (.raw e)]) ++ [.hit ("stale:" ++ fullKey)])
          (calls ++ [.get ("stale:" ++ fullKey)])
    | .ok (none, st') =>
        finallyUnlock B emsg lockKey now (.error (.raw e)) st' l1
          (events ++ [.error fullKey (.raw e)]) (calls ++ [.get ("stale:" ++ fullKey)])
    | .error se =>
        finallyUnlock B emsg lockKey now (.error (.raw e)) st l1
          ((events ++ [.error fullKey (.raw e)]) ++ [.error ("stale:" ++ fullKey) (.raw se)])
          (calls ++ [.get ("stale:" ++ fullKey)])
  else
    finallyUnlock B emsg lockKey now (.error (.raw e)) st l1
      (events ++ [.error fullKey (.raw e)]) calls

/-- Embeds the winner branch of `fetch` (lock acquired): log LOCK, invoke
the origin function, write the result with `ttl`, refresh the L1 entry,
write the stale copy when fallback is enabled and `staleTtl > ttl`
(best-effort), and return the value; any failure of the origin call or of
the primary write goes through `catchPath`; the lock is always released. -/
def winnerPath {σ V ε : Type} (B : Backend σ V ε) (emsg : ε → String)
    (cfg : CacheHandlerOptions) (opts : CacheFetchOptions)
    (fullKey lockKey : String) (fetcherRes : Except ε (Option V)) (st : σ)
    (l1 : List (String × L1Item V)) (now : ℚ) : Outcome σ V ε :=
  match fetcherRes with
  | .error e => catchPath B emsg cfg opts fullKey lockKey e st l1 now
      [.miss fullKey, .lock lockKey] [.get fullKey, .lock lockKey]
  | .ok v =>
    match B.set st now fullKey v (some opts.ttl) with
    | .error e =>
        catchPath B emsg cfg opts fullKey lockKey e st l1 now
          [.miss fullKey, .lock lockKey]
          ([.get fullKey, .lock lockKey] ++ [.set fullKey])
    | .ok st₃ =>
      if cfg.fallbackToStale = true ∧ opts.staleTtl ≠ 0 ∧ opts.ttl < opts.staleTtl then
        match B.set st₃ now ("stale:" ++ fullKey) v (some opts.staleTtl) with
        | .error e =>
            finallyUnlock B emsg lockKey now (.ok v) st₃
              (alistInsert fullKey ⟨v, now + 1000⟩ l1)
              ([.miss fullKey, .lock lockKey] ++ [.error ("stale:" ++ fullKey) (.raw e)])
              ([.get fullKey, .lock lockKey] ++ [.set fullKey, .set ("stale:" ++ fullKey)])
        | .ok st₄ =>
            finallyUnlock B emsg lockKey now (.ok v) st₄
              (alistInsert fullKey ⟨v, now + 1000⟩ l1)
              [.miss fullKey, .lock lockKey]
              ([.get fullKey, .lock lockKey] ++ [.set fullKey, .set ("stale:" ++ fullKey)])
      else
        finallyUnlock B emsg lockKey now (.ok v) st₃
          (alistInsert fullKey ⟨v, now + 1000⟩ l1)
          [.miss fullKey, .lock lockKey]
          ([.get fullKey, .lock lockKey] ++ [.set fullKey])

/-- Embeds the waiter branch of `fetch`: log WAIT and enter the poll
loop. -/
def waiterPath {σ V ε : Type} (B : Backend σ V ε)
    (key fullKey lockKey : String) (opts : CacheFetchOptions) (st : σ)
    (l1 : List (String × L1Item V)) (now : ℚ) : Outcome σ V ε :=
  pollLoop B key fullKey now opts.lockTimeout l1 50 now (by norm_num) st
    [.miss fullKey, .wait lockKey] [.get fullKey, .lock lockKey]

/-- Embeds `fetch` of `createCacheHandler.ts`.  The origin function is
represented by `fetcherRes`, the result it would produce if invoked; the
`originCalled` field of the outcome records whether it was.  A backend
failure of the initial read or of the lock acquisition is wrapped in a
`CacheBackendError`. -/
def fetch {σ V ε : Type} (B : Backend σ V ε) (emsg : ε → String)
    (cfg : CacheHandlerOptions) (opts : CacheFetchOptions) (key : String)
    (fetcherRes : Except ε (Option V)) (st : σ)
    (l1 : List (String × L1Item V)) (now : ℚ) : Outcome σ V ε :=
  let fullKey := getFullKey cfg.pfx cfg.version key
  match l1Lookup l1 fullKey now with
  | some v => ⟨.ok v, st, l1, [.hit fullKey], [], false⟩
  | none =>
    match B.get st now fullKey with
    | .error e =>
        ⟨.error (.cacheBackendError
            ("Failed to get value from cache: " ++ emsg e) (some e)),
          st, l1, [], [.get fullKey], false⟩
    | .ok (some v, st₁) =>
        ⟨.ok (some v), st₁, alistInsert fullKey ⟨some v, now + 1000⟩ l1,
          [.hit fullKey], [.get fullKey], false⟩
    | .ok (none, st₁) =>
      let lockKey := "lock:" ++ fullKey
      match B.lock st₁ now lockKey ((opts.lockTimeout + 999) / 1000) with
      | .error e =>
          ⟨.error (.cacheBackendError
              ("Failed to acquire lock: " ++ emsg e) (some e)),
            st₁, l1, [.miss fullKey], [.get fullKey, .lock lockKey], false⟩
      | .ok (acquired, st₂) =>
          if acquired then
            winnerPath B emsg cfg opts fullKey lockKey fetcherRes st₂ l1 now
          else
            waiterPath B key fullKey lockKey opts st₂ l1 now

/-- Winner branch of the handler with the in-process acceleration layer
absent: identical to `winnerPath` except that no L1 entry is written.
This is the comparison point of the specification's requirement that the
L1 layer "must not change external behavior, only latency". -/
def winnerPathNoL1 {σ V ε : Type} (B : Backend σ V ε) (emsg : ε → String)
    (cfg : CacheHandlerOptions) (opts : CacheFetchOptions)
    (fullKey lockKey : String) (fetcherRes : Except ε (Option V)) (st : σ)
    (now : ℚ) : Outcome σ V ε :=
  match fetcherRes with
  | .error e => catchPath B emsg cfg opts fullKey lockKey e st [] now
      [.miss fullKey, .lock lockKey] [.get fullKey, .lock lockKey]
  | .ok v =>
    match B.set st now fullKey v (some opts.ttl) with
    | .error e =>
        catchPath B emsg cfg opts fullKey lockKey e st [] now
          [.miss fullKey, .lock lockKey]
          ([.get fullKey, .lock lockKey] ++ [.set fullKey])
    | .ok st₃ =>
      if cfg.fallbackToStale = true ∧ opts.staleTtl ≠ 0 ∧ opts.ttl < opts.staleTtl then
        match B.set st₃ now ("stale:" ++ fullKey) v (some opts.staleTtl) with
        | .error e =>
            finallyUnlock B emsg lockKey now (.ok v) st₃ []
              ([.miss fullKey, .lock lockKey] ++ [.error ("stale:" ++ fullKey) (.raw e)])
              ([.get fullKey, .lock lockKey] ++ [.set fullKey, .set ("stale:" ++ fullKey)])
        | .ok st₄ =>
            finallyUnlock B emsg lockKey now (.ok v) st₄ []
              [.miss fullKey, .lock lockKey]
              ([.get fullKey, .lock lockKey] ++ [.set fullKey, .set ("stale:" ++ fullKey)])
      else
        finallyUnlock B emsg lockKey now (.ok v) st₃ []
          [.miss fullKey, .lock lockKey]
          ([.get fullKey, .lock lockKey] ++ [.set fullKey])

/-- The fetch algorithm of an identical handler without the L1
acceleration cache, following the specification's description of the
orchestrator (cache check, lock negotiation, origin invocation, stale
fallback, cleanup) with the optional acceleration layer absent.  Its
outcome keeps an empty L1 component so that it is comparable with
`fetch`. -/
def fetchWithoutL1 {σ V ε : Type} (B : Backend σ V ε) (emsg : ε → String)
    (cfg : CacheHandlerOptions) (opts : CacheFetchOptions) (key : String)
    (fetcherRes : Except ε (Option V)) (st : σ) (now : ℚ) : Outcome σ V ε :=
  let fullKey := getFullKey cfg.pfx cfg.version key
  match B.get st now fullKey with
  | .error e =>
      ⟨.error (.cacheBackendError
          ("Failed to get value from cache: " ++ emsg e) (some e)),
        st, [], [], [.get fullKey], false⟩
  | .ok (some v, st₁) =>
      ⟨.ok (some v), st₁, [], [.hit fullKey], [.get fullKey], false⟩
  | .ok (none, st₁) =>
    let lockKey := "lock:" ++ fullKey
    match B.lock st₁ now lockKey ((opts.lockTimeout + 999) / 1000) with
    | .error e =>
        ⟨.error (.cacheBackendError
            ("Failed to acquire lock: " ++ emsg e) (some e)),
          st₁, [], [.miss fullKey], [.get fullKey, .lock lockKey], false⟩
    | .ok (acquired, st₂) =>
        if acquired then
          winnerPathNoL1 B emsg cfg opts fullKey lockKey fetcherRes st₂ now
        else
          waiterPath B key fullKey lockKey opts st₂ [] now

/-- Embeds `RedisCacheBackend.get` of `src/backends/redis.ts`.  The redis
client is abstracted as `clientGet` (it may fail with a transport error,
which this variant propagates unwrapped) and `JSON.parse` as the partial
function `decode`; a stored payload on which `decode` fails models an
undecodable (invalid JSON) payload.  Per the source, a `null` reply and an
undecodable payload both come back as `undefined` (`Except.ok none`): the
parse failure is swallowed by `catch { return undefined }`. -/
def redisGet {V ε : Type} (decode : String → Option V)
    (clientGet : String → Except ε (Option String)) (pfx key : String) :
    Except ε (Option V) :=
  let fullKey := if pfx ≠ "" then pfx ++ ":" ++ key else key
  match clientGet fullKey with
  | .error e => .error e
  | .ok none => .ok none
  | .ok (some s) =>
    match decode s with
    | some v => .ok (some v)
    | none => .ok none

/-- Decidable equality for `Except`, so that concrete outcomes can be
compared by evaluation. -/
instance exceptDecEq {ε α : Type} [DecidableEq ε] [DecidableEq α] :
    DecidableEq (Except ε α) := fun x y =>
  match x, y with
  | .error e, .error e' =>
      if h : e = e' then isTrue (by rw [h])
      else isFalse (fun hc => by injection hc with h'; exact h h')
  | .ok a, .ok b =>
      if h : a = b then isTrue (by rw [h])
      else isFalse (fun hc => by injection hc with h'; exact h h')
  | .error _, .ok _ => isFalse (fun hc => Except.noConfusion hc)
  | .ok _, .error _ => isFalse (fun hc => Except.noConfusion hc)

/-- A one-state backend whose reads always miss, whose writes succeed,
whose lock is always granted, and whose release always fails; it
exercises the release-failure path of the winner branch. -/
def unlockFailB : Backend Unit Nat String where
  get _ _ _ := .ok (none, ())
  set _ _ _ _ _ := .ok ()
  lock _ _ _ _ := .ok (true, ())
  unlock _ _ _ := .error "unlock-fail"

/-! Helper lemmas about the association-list model and the derived key
namespaces. -/

theorem alistFind_filter_ne {α : Type} (k k' : String) (h : k' ≠ k)
    (l : List (String × α)) :
    alistFind k' (l.filter (fun p => p.1 ≠ k)) = alistFind k' l := by
  simp only [ne_eq, decide_not]
  induction l with
  | nil => rfl
  | cons p rest ih =>
    obtain ⟨a, b⟩ := p
    by_cases hp : a = k
    · rw [List.filter_cons, if_neg (by simp [hp]), ih]
      have ha : a ≠ k' := by rw [hp]; exact fun hkk => h hkk.symm
      simp [alistFind, ha]
    · rw [List.filter_cons, if_pos (by simp [hp])]
      by_cases hpk : a = k'
      · simp [alistFind, hpk]
      · simp [alistFind, hpk, ih]

theorem alistFind_insert_self {α : Type} (k : String) (v : α)
    (l : List (String × α)) : alistFind k (alistInsert k v l) = some v := by
  simp [alistFind, alistInsert]

theorem alistFind_insert_ne {α : Type} (k k' : String) (v : α)
    (l : List (String × α)) (h : k' ≠ k) :
    alistFind k' (alistInsert k v l) = alistFind k' l := by
  have hk : k ≠ k' := fun hkk => h hkk.symm
  simp only [alistFind, alistInsert, hk, if_false]
  exact alistFind_filter_ne k k' h l

theorem alistFind_erase_self {α : Type} (k : String)
    (l : List (String × α)) : alistFind k (alistErase k l) = none := by
  induction l with
  | nil => rfl
  | cons p rest ih =>
    by_cases hp : p.1 = k
    · simpa [alistErase, List.filter_cons, hp] using ih
    · simpa [alistErase, alistFind, List.filter_cons, hp] using ih

theorem alistFind_erase_ne {α : Type} (k k' : String)
    (l : List (String × α)) (h : k' ≠ k) :
    alistFind k' (alistErase k l) = alistFind k' l :=
  alistFind_filter_ne k k' h l

theorem lock_key_ne (k : String) : "lock:" ++ k ≠ k := by
  intro h
  have h1 : ("lock:" ++ k).length = k.length := congrArg String.length h
  rw [String.length_append] at h1
  have h2 : ("lock:" : String).length = 5 := rfl
  omega

theorem stale_key_ne (k : String) : "stale:" ++ k ≠ k := by
  intro h
  have h1 : ("stale:" ++ k).length = k.length := congrArg String.length h
  rw [String.length_append] at h1
  have h2 : ("stale:" : String).length = 6 := rfl
  omega

theorem stale_key_ne_lock_key (k : String) : "stale:" ++ k ≠ "lock:" ++ k := by
  intro h
  have h1 : ("stale:" ++ k).length = ("lock:" ++ k).length :=
    congrArg String.length h
  rw [String.length_append, String.length_append] at h1
  have h2 : ("stale:" : String).length = 6 := rfl
  have h3 : ("lock:" : String).length = 5 := rfl
  omega

/-! Branch-reduction lemmas for `fetch`. -/

theorem fetch_eq_winnerPath {σ V ε : Type} (B : Backend σ V ε)
    (emsg : ε → String) (cfg : CacheHandlerOptions) (opts : CacheFetchOptions)
    (key : String) (fetcherRes : Except ε (Option V)) (st st₁ st₂ : σ)
    (l1 : List (String × L1Item V)) (now : ℚ)
    (hl1 : l1Lookup l1 (getFullKey cfg.pfx cfg.version key) now = none)
    (hget : B.get st now (getFullKey cfg.pfx cfg.version key) = .ok (none, st₁))
    (hlock : B.lock st₁ now ("lock:" ++ getFullKey cfg.pfx cfg.version key)
        ((opts.lockTimeout + 999) / 1000) = .ok (true, st₂)) :
    fetch B emsg cfg opts key fetcherRes st l1 now =
      winnerPath B emsg cfg opts (getFullKey cfg.pfx cfg.version key)
        ("lock:" ++ getFullKey cfg.pfx cfg.version key) fetcherRes st₂ l1 now := by
  simp only [fetch, hl1, hget, hlock, if_true]

theorem fetch_eq_waiterPath {σ V ε : Type} (B : Backend σ V ε)
    (emsg : ε → String) (cfg : CacheHandlerOptions) (opts : CacheFetchOptions)
    (key : String) (fetcherRes : Except ε (Option V)) (st st₁ st₂ : σ)
    (l1 : List (String × L1Item V)) (now : ℚ)
    (hl1 : l1Lookup l1 (getFullKey cfg.pfx cfg.version key) now = none)
    (hget : B.get st now (getFullKey cfg.pfx cfg.version key) = .ok (none, st₁))
    (hlock : B.lock st₁ now ("lock:" ++ getFullKey cfg.pfx cfg.version key)
        ((opts.lockTimeout + 999) / 1000) = .ok (false, st₂)) :
    fetch B emsg cfg opts key fetcherRes st l1 now =
      waiterPath B key (getFullKey cfg.pfx cfg.version key)
        ("lock:" ++ getFullKey cfg.pfx cfg.version key) opts st₂ l1 now := by
  simp only [fetch, hl1, hget, hlock]
  rfl

/-- With the in-memory backend and no entry stored under `fullKey`, the
poll loop of the waiter can only terminate by timeout: nothing ever
writes the key in a single-call model, every poll reads `undefined`, and
when `lockTimeout` has elapsed the loop fails with the
`CacheTimeoutError` built from the logical key and the timeout. -/
theorem pollLoop_memB_absent {V ε : Type} (key fullKey : String) (start : ℚ)
    (T : Nat) (l1 : List (String × L1Item V)) :
    ∀ (interval now : ℚ) (hi : 50 ≤ interval) (st : MemState V)
      (events : List (CacheLogEvent ε)) (calls : List BackendCall),
      alistFind fullKey st.store = none →
      ∃ calls', pollLoop (memB V ε) key fullKey start T l1 interval now hi st events calls =
        ⟨.error (.cacheTimeoutError
            ("Timeout waiting for " ++ key ++ " (" ++ toString T ++ "ms)")),
          st, l1, events, calls', false⟩ := by
  refine pollLoop.induct (memB V ε) key fullKey start T l1
    (motive := fun interval now hi st events calls =>
      alistFind fullKey st.store = none →
      ∃ calls', pollLoop (memB V ε) key fullKey start T l1 interval now hi st events calls =
        ⟨.error (.cacheTimeoutError
            ("Timeout waiting for " ++ key ++ " (" ++ toString T ++ "ms)")),
          st, l1, events, calls', false⟩) ?_ ?_ ?_ ?_
  · intro interval now hi st events calls hlt v st' hget hstore
    simp [memB, memGet, hstore] at hget
  · intro interval now hi st events calls hlt st' hget ih hstore
    have hst : st' = st := by
      simp [memB, memGet, hstore] at hget
      exact hget.symm
    subst hst
    obtain ⟨calls', hc⟩ := ih hstore
    refine ⟨calls', ?_⟩
    rw [pollLoop.eq_def, dif_pos hlt]
    simp only [memB, memGet, hstore]
    exact hc
  · intro interval now hi st events calls hlt e hget
    simp [memB] at hget
  · intro interval now hi st events calls hlt hstore
    refine ⟨calls, ?_⟩
    rw [pollLoop.eq_def, dif_neg hlt]

/-- What the `finally` block guarantees whatever the release does: the
pending result stands, exactly one release call is appended to the trace,
a failing release is logged as an ERROR event with a constructed
`CacheBackendError`, and previously logged events are kept. -/
theorem finallyUnlock_spec {σ V ε : Type} (B : Backend σ V ε)
    (emsg : ε → String) (lockKey : String) (now : ℚ)
    (result : Except (JSErr ε) (Option V)) (st : σ)
    (l1 : List (String × L1Item V)) (events : List (CacheLogEvent ε))
    (calls : List BackendCall) :
    (finallyUnlock B emsg lockKey now result st l1 events calls).result = result ∧
    (finallyUnlock B emsg lockKey now result st l1 events calls).calls =
      calls ++ [.unlock lockKey] ∧
    (∀ ue, B.unlock st now lockKey = .error ue →
      CacheLogEvent.error lockKey (.cacheBackendError
          ("Failed to release lock: " ++ emsg ue) (some ue)) ∈
        (finallyUnlock B emsg lockKey now result st l1 events calls).events) ∧
    (∀ ev, ev ∈ events →
      ev ∈ (finallyUnlock B emsg lockKey now result st l1 events calls).events) ∧
    (finallyUnlock B emsg lockKey now result st l1 events calls).originCalled = true := by
  cases hu : B.unlock st now lockKey with
  | ok st' => simp [finallyUnlock, hu]
  | error ue =>
      simp only [finallyUnlock, hu]
      refine ⟨trivial, trivial, ?_, ?_, trivial⟩
      · intro ue' hue'
        injection hue' with h2
        subst h2
        simp
      · intro ev h
        exact List.mem_append_left _ h

/-- C3: with the in-memory backend, when the lock for the key is held by
another holder whose lock entry has not expired and no cached value is
ever present, `fetch` fails with a `CacheTimeoutError` whose message
names the logical key and the configured `lockTimeout`, and the waiting
caller never invokes the origin function. -/
theorem fetch_lock_busy_times_out {V ε : Type} (emsg : ε → String)
    (cfg : CacheHandlerOptions) (opts : CacheFetchOptions) (key : String)
    (fetcherRes : Except ε (Option V)) (st : MemState V)
    (l1 : List (String × L1Item V)) (now exp : ℚ)
    (hl1 : l1Lookup l1 (getFullKey cfg.pfx cfg.version key) now = none)
    (hstore : alistFind (getFullKey cfg.pfx cfg.version key) st.store = none)
    (hlock : alistFind ("lock:" ++ getFullKey cfg.pfx cfg.version key) st.locks = some exp)
    (hbusy : now < exp) :
    (fetch (memB V ε) emsg cfg opts key fetcherRes st l1 now).result =
      .error (.cacheTimeoutError
        ("Timeout waiting for " ++ key ++ " (" ++ toString opts.lockTimeout ++ "ms)")) ∧
    (fetch (memB V ε) emsg cfg opts key fetcherRes st l1 now).originCalled = false := by
  have hget : (memB V ε).get st now (getFullKey cfg.pfx cfg.version key) = .ok (none, st) := by
    simp [memB, memGet, hstore]
  have hlk : (memB V ε).lock st now ("lock:" ++ getFullKey cfg.pfx cfg.version key)
      ((opts.lockTimeout + 999) / 1000) = .ok (false, st) := by
    simp [memB, memLock, hlock, hbusy]
  rw [fetch_eq_waiterPath (memB V ε) emsg cfg opts key fetcherRes st st st l1 now hl1 hget hlk]
  obtain ⟨calls', hc⟩ := pollLoop_memB_absent key (getFullKey cfg.pfx cfg.version key) now
    opts.lockTimeout l1 50 now (by norm_num) st
    [.miss (getFullKey cfg.pfx cfg.version key),
      .wait ("lock:" ++ getFullKey cfg.pfx cfg.version key)]
    [.get (getFullKey cfg.pfx cfg.version key),
      .lock ("lock:" ++ getFullKey cfg.pfx cfg.version key)] hstore
  rw [waiterPath, hc]
  exact ⟨rfl, rfl⟩

/-- Witness for `fetch_lock_busy_times_out` at a concrete stuck-holder
state. -/
theorem fetch_lock_busy_times_out_witness :
    (l1Lookup ([] : List (String × L1Item Nat)) (getFullKey "" "" "k") 0 = none ∧
      alistFind (getFullKey "" "" "k")
        (⟨[], [("lock:k", 999999)]⟩ : MemState Nat).store = none ∧
      alistFind ("lock:" ++ getFullKey "" "" "k")
        (⟨[], [("lock:k", 999999)]⟩ : MemState Nat).locks = some 999999 ∧
      (0 : ℚ) < 999999) ∧
    ((fetch (memB Nat String) id ⟨"", "", false⟩ ⟨300, 5000, 3600⟩ "k"
        (.ok (some 1)) ⟨[], [("lock:k", 999999)]⟩ [] 0).result =
      .error (.cacheTimeoutError
        ("Timeout waiting for " ++ "k" ++ " (" ++
          toString (⟨300, 5000, 3600⟩ : CacheFetchOptions).lockTimeout ++ "ms)")) ∧
    (fetch (memB Nat String) id ⟨"", "", false⟩ ⟨300, 5000, 3600⟩ "k"
        (.ok (some 1)) ⟨[], [("lock:k", 999999)]⟩ [] 0).originCalled = false) :=
  ⟨⟨rfl, by decide, by decide, by norm_num⟩,
    fetch_lock_busy_times_out id ⟨"", "", false⟩ ⟨300, 5000, 3600⟩ "k"
      (.ok (some 1)) ⟨[], [("lock:k", 999999)]⟩ [] 0 999999
      rfl (by decide) (by decide) (by norm_num)⟩

/-- C4: when the lock is acquired and the origin function fails, with
fallback disabled or no stale entry present, `fetch` propagates the very
origin error, unwrapped; the lock-release call appears exactly once in
the backend trace of that path; and when the release fails the failure is
logged as an ERROR event carrying a constructed `CacheBackendError` while
the call still fails with the origin error. -/
theorem fetch_origin_error_propagated {σ V ε : Type} (B : Backend σ V ε)
    (emsg : ε → String) (cfg : CacheHandlerOptions) (opts : CacheFetchOptions)
    (key : String) (e : ε) (st st₁ st₂ : σ)
    (l1 : List (String × L1Item V)) (now : ℚ)
    (hl1 : l1Lookup l1 (getFullKey cfg.pfx cfg.version key) now = none)
    (hget : B.get st now (getFullKey cfg.pfx cfg.version key) = .ok (none, st₁))
    (hlock : B.lock st₁ now ("lock:" ++ getFullKey cfg.pfx cfg.version key)
        ((opts.lockTimeout + 999) / 1000) = .ok (true, st₂))
    (hnostale : cfg.fallbackToStale = false ∨
      ∃ st₃, B.get st₂ now ("stale:" ++ getFullKey cfg.pfx cfg.version key) =
        .ok (none, st₃)) :
    (fetch B emsg cfg opts key (.error e) st l1 now).result = .error (.raw e) ∧
    (fetch B emsg cfg opts key (.error e) st l1 now).calls.count
      (.unlock ("lock:" ++ getFullKey cfg.pfx cfg.version key)) = 1 ∧
    ∀ ue, (∀ s, B.unlock s now ("lock:" ++ getFullKey cfg.pfx cfg.version key) =
        .error ue) →
      CacheLogEvent.error ("lock:" ++ getFullKey cfg.pfx cfg.version key)
          (.cacheBackendError ("Failed to release lock: " ++ emsg ue) (some ue)) ∈
        (fetch B emsg cfg opts key (.error e) st l1 now).events := by
  rw [fetch_eq_winnerPath B emsg cfg opts key (.error e) st st₁ st₂ l1 now hl1 hget hlock]
  simp only [winnerPath]
  by_cases hc : cfg.fallbackToStale = true ∧ opts.staleTtl ≠ 0
  · obtain ⟨st₃, hstale⟩ : ∃ st₃,
        B.get st₂ now ("stale:" ++ getFullKey cfg.pfx cfg.version key) =
          .ok (none, st₃) := by
      rcases hnostale with hfb | h
      · rw [hfb] at hc
        exact absurd hc.1 (by simp)
      · exact h
    simp only [catchPath, if_pos hc, hstale]
    obtain ⟨h1, h2, h3, h4, h5⟩ := finallyUnlock_spec B emsg
      ("lock:" ++ getFullKey cfg.pfx cfg.version key) now
      (.error (.raw e)) st₃ l1
      ([.miss (getFullKey cfg.pfx cfg.version key),
        .lock ("lock:" ++ getFullKey cfg.pfx cfg.version key)] ++
        [.error (getFullKey cfg.pfx cfg.version key) (.raw e)])
      ([.get (getFullKey cfg.pfx cfg.version key),
        .lock ("lock:" ++ getFullKey cfg.pfx cfg.version key)] ++
        [.get ("stale:" ++ getFullKey cfg.pfx cfg.version key)])
    refine ⟨h1, ?_, ?_⟩
    · rw [h2]
      simp [List.count_append, List.count_cons]
    · intro ue hue
      exact h3 ue (hue st₃)
  · simp only [catchPath, if_neg hc]
    obtain ⟨h1, h2, h3, h4, h5⟩ := finallyUnlock_spec B emsg
      ("lock:" ++ getFullKey cfg.pfx cfg.version key) now
      (.error (.raw e)) st₂ l1
      ([.miss (getFullKey cfg.pfx cfg.version key),
        .lock ("lock:" ++ getFullKey cfg.pfx cfg.version key)] ++
        [.error (getFullKey cfg.pfx cfg.version key) (.raw e)])
      [.get (getFullKey cfg.pfx cfg.version key),
        .lock ("lock:" ++ getFullKey cfg.pfx cfg.version key)]
    refine ⟨h1, ?_, ?_⟩
    · rw [h2]
      simp [List.count_append, List.count_cons]
    · intro ue hue
      exact h3 ue (hue st₂)

/-- Witness for `fetch_origin_error_propagated`: a backend that always
misses, grants the lock and fails to release it, with fallback
disabled. -/
theorem fetch_origin_error_propagated_witness :
    (l1Lookup ([] : List (String × L1Item Nat)) (getFullKey "" "" "k") 0 = none ∧
      unlockFailB.get () 0 (getFullKey "" "" "k") = .ok (none, ()) ∧
      (⟨"", "", false⟩ : CacheHandlerOptions).fallbackToStale = false) ∧
    ((fetch unlockFailB id ⟨"", "", false⟩ ⟨300, 5000, 3600⟩ "k"
        (.error "origin-err") () [] 0).result = .error (.raw "origin-err") ∧
      (fetch unlockFailB id ⟨"", "", false⟩ ⟨300, 5000, 3600⟩ "k"
        (.error "origin-err") () [] 0).calls.count
        (.unlock ("lock:" ++ getFullKey
          (⟨"", "", false⟩ : CacheHandlerOptions).pfx
          (⟨"", "", false⟩ : CacheHandlerOptions).version "k")) = 1 ∧
      ∀ ue, (∀ s, unlockFailB.unlock s 0 ("lock:" ++ getFullKey
          (⟨"", "", false⟩ : CacheHandlerOptions).pfx
          (⟨"", "", false⟩ : CacheHandlerOptions).version "k") = .error ue) →
        CacheLogEvent.error ("lock:" ++ getFullKey
            (⟨"", "", false⟩ : CacheHandlerOptions).pfx
            (⟨"", "", false⟩ : CacheHandlerOptions).version "k")
            (.cacheBackendError ("Failed to release lock: " ++ id ue) (some ue)) ∈
          (fetch unlockFailB id ⟨"", "", false⟩ ⟨300, 5000, 3600⟩ "k"
            (.error "origin-err") () [] 0).events) :=
  ⟨⟨rfl, rfl, rfl⟩,
    fetch_origin_error_propagated unlockFailB id ⟨"", "", false⟩ ⟨300, 5000, 3600⟩
      "k" "origin-err" () () () [] 0 rfl rfl rfl (Or.inl rfl)⟩

/-- C5: with fallback enabled, after a first successful fetch (with
`staleTtl > ttl`, so a stale copy was written), once the primary entry has
expired (evicted lazily) but the stale copy has not, a second fetch whose
origin function fails returns the previously cached value, with a HIT
event for the stale key, instead of raising the origin error. -/
theorem fetch_stale_fallback_serves_previous {V ε : Type} (emsg : ε → String)
    (cfg : CacheHandlerOptions) (opts : CacheFetchOptions) (key : String)
    (v : V) (e : ε) (now d : ℚ)
    (hfb : cfg.fallbackToStale = true)
    (httl : 0 < opts.ttl)
    (hlt : opts.ttl < opts.staleTtl)
    (hnow : 0 ≤ now)
    (hd1 : (opts.ttl : ℚ) * 1000 < d)
    (hd2 : d ≤ (opts.staleTtl : ℚ) * 1000)
    (o₁ o₂ : Outcome (MemState V) V ε)
    (ho₁ : o₁ = fetch (memB V ε) emsg cfg opts key (.ok (some v)) ⟨[], []⟩ [] now)
    (ho₂ : o₂ = fetch (memB V ε) emsg cfg opts key (.error e) o₁.backend o₁.l1 (now + d)) :
    o₁.result = .ok (some v) ∧
    o₂.result = .ok (some v) ∧
    CacheLogEvent.hit ("stale:" ++ getFullKey cfg.pfx cfg.version key) ∈ o₂.events := by
  have httl0 : opts.ttl ≠ 0 := by omega
  have hsne : opts.staleTtl ≠ 0 := by omega
  have hget1 : (memB V ε).get (⟨[], []⟩ : MemState V) now
      (getFullKey cfg.pfx cfg.version key) = .ok (none, ⟨[], []⟩) := rfl
  have hlock1 : (memB V ε).lock (⟨[], []⟩ : MemState V) now
      ("lock:" ++ getFullKey cfg.pfx cfg.version key)
      ((opts.lockTimeout + 999) / 1000) =
      .ok (true, ⟨[], [("lock:" ++ getFullKey cfg.pfx cfg.version key,
        now + ((opts.lockTimeout + 999) / 1000 : Nat) * 1000)]⟩) := rfl
  have ho1full : fetch (memB V ε) emsg cfg opts key (.ok (some v)) ⟨[], []⟩ [] now =
      ⟨.ok (some v),
        ⟨[("stale:" ++ getFullKey cfg.pfx cfg.version key,
            ⟨some v, some (now + (opts.staleTtl : ℚ) * 1000)⟩),
          (getFullKey cfg.pfx cfg.version key,
            ⟨some v, some (now + (opts.ttl : ℚ) * 1000)⟩)], []⟩,
        [(getFullKey cfg.pfx cfg.version key, ⟨some v, now + 1000⟩)],
        [.miss (getFullKey cfg.pfx cfg.version key),
          .lock ("lock:" ++ getFullKey cfg.pfx cfg.version key)],
        [.get (getFullKey cfg.pfx cfg.version key),
          .lock ("lock:" ++ getFullKey cfg.pfx cfg.version key),
          .set (getFullKey cfg.pfx cfg.version key),
          .set ("stale:" ++ getFullKey cfg.pfx cfg.version key),
          .unlock ("lock:" ++ getFullKey cfg.pfx cfg.version key)],
        true⟩ := by
    rw [fetch_eq_winnerPath (memB V ε) emsg cfg opts key (.ok (some v))
      ⟨[], []⟩ ⟨[], []⟩ _ [] now rfl hget1 hlock1]
    simp [winnerPath, finallyUnlock, memB, memSet, memUnlock, alistInsert,
      alistErase, httl0, hsne, hfb, hlt,
      Ne.symm (stale_key_ne (getFullKey cfg.pfx cfg.version key))]
  subst ho₂
  subst ho₁
  rw [ho1full]
  refine ⟨rfl, ?_⟩
  have h1le : (1 : ℚ) ≤ (opts.ttl : ℚ) := by exact_mod_cast httl
  have h1000 : (1000 : ℚ) ≤ (opts.ttl : ℚ) * 1000 := by nlinarith
  have hl1b : l1Lookup
      [(getFullKey cfg.pfx cfg.version key, (⟨some v, now + 1000⟩ : L1Item V))]
      (getFullKey cfg.pfx cfg.version key) (now + d) = none := by
    have hng : ¬ (now + 1000 > now + d) := by linarith
    simp [l1Lookup, alistFind, hng]
  have hene : now + (opts.ttl : ℚ) * 1000 ≠ 0 := ne_of_gt (by linarith)
  have hgt : now + d > now + (opts.ttl : ℚ) * 1000 := by linarith
  have hget2 : (memB V ε).get
      (⟨[("stale:" ++ getFullKey cfg.pfx cfg.version key,
            ⟨some v, some (now + (opts.staleTtl : ℚ) * 1000)⟩),
          (getFullKey cfg.pfx cfg.version key,
            ⟨some v, some (now + (opts.ttl : ℚ) * 1000)⟩)], []⟩ : MemState V)
      (now + d) (getFullKey cfg.pfx cfg.version key) =
      .ok (none, ⟨[("stale:" ++ getFullKey cfg.pfx cfg.version key,
            ⟨some v, some (now + (opts.staleTtl : ℚ) * 1000)⟩)], []⟩) := by
    simp [memB, memGet, alistFind, alistErase,
      stale_key_ne (getFullKey cfg.pfx cfg.version key), hene, hgt]
  have hlock2 : (memB V ε).lock
      (⟨[("stale:" ++ getFullKey cfg.pfx cfg.version key,
            ⟨some v, some (now + (opts.staleTtl : ℚ) * 1000)⟩)], []⟩ : MemState V)
      (now + d) ("lock:" ++ getFullKey cfg.pfx cfg.version key)
      ((opts.lockTimeout + 999) / 1000) =
      .ok (true, ⟨[("stale:" ++ getFullKey cfg.pfx cfg.version key,
            ⟨some v, some (now + (opts.staleTtl : ℚ) * 1000)⟩)],
        [("lock:" ++ getFullKey cfg.pfx cfg.version key,
          now + d + ((opts.lockTimeout + 999) / 1000 : Nat) * 1000)]⟩) := rfl
  rw [fetch_eq_winnerPath (memB V ε) emsg cfg opts key (.error e) _ _ _ _ (now + d)
    hl1b hget2 hlock2]
  have hsene : now + (opts.staleTtl : ℚ) * 1000 ≠ 0 := ne_of_gt (by nlinarith)
  have hsle : ¬ (now + d > now + (opts.staleTtl : ℚ) * 1000) := by linarith
  simp [winnerPath, catchPath, finallyUnlock, memB, memGet, memUnlock, alistFind,
    alistErase, hfb, hsne, hsene, hsle]

/-- Witness for `fetch_stale_fallback_serves_previous`: a concrete
first-write, eviction-by-expiry and failing second origin call. -/
theorem fetch_stale_fallback_serves_previous_witness :
    ((⟨"app", "v1", true⟩ : CacheHandlerOptions).fallbackToStale = true ∧
      0 < (⟨60, 5000, 120⟩ : CacheFetchOptions).ttl ∧
      (⟨60, 5000, 120⟩ : CacheFetchOptions).ttl <
        (⟨60, 5000, 120⟩ : CacheFetchOptions).staleTtl ∧
      (0 : ℚ) ≤ 0 ∧
      (((⟨60, 5000, 120⟩ : CacheFetchOptions).ttl : ℚ) * 1000 < 61000) ∧
      ((61000 : ℚ) ≤ ((⟨60, 5000, 120⟩ : CacheFetchOptions).staleTtl : ℚ) * 1000)) ∧
    ((fetch (memB Nat String) id ⟨"app", "v1", true⟩ ⟨60, 5000, 120⟩ "posts"
        (.ok (some 42)) ⟨[], []⟩ [] 0).result = .ok (some 42) ∧
      (fetch (memB Nat String) id ⟨"app", "v1", true⟩ ⟨60, 5000, 120⟩ "posts"
        (.error "err")
        (fetch (memB Nat String) id ⟨"app", "v1", true⟩ ⟨60, 5000, 120⟩ "posts"
          (.ok (some 42)) ⟨[], []⟩ [] 0).backend
        (fetch (memB Nat String) id ⟨"app", "v1", true⟩ ⟨60, 5000, 120⟩ "posts"
          (.ok (some 42)) ⟨[], []⟩ [] 0).l1
        (0 + 61000)).result = .ok (some 42) ∧
      CacheLogEvent.hit ("stale:" ++ getFullKey
          (⟨"app", "v1", true⟩ : CacheHandlerOptions).pfx
          (⟨"app", "v1", true⟩ : CacheHandlerOptions).version "posts") ∈
        (fetch (memB Nat String) id ⟨"app", "v1", true⟩ ⟨60, 5000, 120⟩ "posts"
          (.error "err")
          (fetch (memB Nat String) id ⟨"app", "v1", true⟩ ⟨60, 5000, 120⟩ "posts"
            (.ok (some 42)) ⟨[], []⟩ [] 0).backend
          (fetch (memB Nat String) id ⟨"app", "v1", true⟩ ⟨60, 5000, 120⟩ "posts"
            (.ok (some 42)) ⟨[], []⟩ [] 0).l1
          (0 + 61000)).events) :=
  ⟨⟨rfl, by norm_num, by norm_num, le_refl 0, by norm_num, by norm_num⟩,
    fetch_stale_fallback_serves_previous id ⟨"app", "v1", true⟩ ⟨60, 5000, 120⟩
      "posts" 42 "err" 0 61000 rfl (by norm_num) (by norm_num) (le_refl 0)
      (by norm_num) (by norm_num) _ _ rfl rfl⟩

/-- C6: on a successful origin call the winner writes a stale copy under
the `stale:` key if and only if fallback is enabled and `staleTtl` is
strictly greater than `ttl`; and when `staleTtl ≤ ttl` (so no stale copy
exists), a later origin failure after the primary entry has expired
propagates the origin error unchanged. -/
theorem fetch_stale_copy_iff {V ε : Type} (emsg : ε → String)
    (cfg : CacheHandlerOptions) (opts : CacheFetchOptions) (key : String)
    (v : V) (e : ε) (now d : ℚ)
    (httl : 0 < opts.ttl) (hnow : 0 ≤ now)
    (hd1 : (opts.ttl : ℚ) * 1000 < d)
    (o₁ o₂ : Outcome (MemState V) V ε)
    (ho₁ : o₁ = fetch (memB V ε) emsg cfg opts key (.ok (some v)) ⟨[], []⟩ [] now)
    (ho₂ : o₂ = fetch (memB V ε) emsg cfg opts key (.error e) o₁.backend o₁.l1 (now + d)) :
    (BackendCall.set ("stale:" ++ getFullKey cfg.pfx cfg.version key) ∈ o₁.calls ↔
      (cfg.fallbackToStale = true ∧ opts.ttl < opts.staleTtl)) ∧
    (cfg.fallbackToStale = true → opts.staleTtl ≤ opts.ttl →
      o₂.result = .error (.raw e)) := by
  have httl0 : opts.ttl ≠ 0 := by omega
  have hget1 : (memB V ε).get (⟨[], []⟩ : MemState V) now
      (getFullKey cfg.pfx cfg.version key) = .ok (none, ⟨[], []⟩) := rfl
  have hlock1 : (memB V ε).lock (⟨[], []⟩ : MemState V) now
      ("lock:" ++ getFullKey cfg.pfx cfg.version key)
      ((opts.lockTimeout + 999) / 1000) =
      .ok (true, ⟨[], [("lock:" ++ getFullKey cfg.pfx cfg.version key,
        now + ((opts.lockTimeout + 999) / 1000 : Nat) * 1000)]⟩) := rfl
  subst ho₂
  subst ho₁
  constructor
  · rw [fetch_eq_winnerPath (memB V ε) emsg cfg opts key (.ok (some v))
      ⟨[], []⟩ ⟨[], []⟩ _ [] now rfl hget1 hlock1]
    by_cases hc : cfg.fallbackToStale = true ∧ opts.staleTtl ≠ 0 ∧
        opts.ttl < opts.staleTtl
    · simp only [winnerPath, finallyUnlock, memB, if_pos hc]
      simp [hc.1, hc.2.2]
    · simp only [winnerPath, finallyUnlock, memB, if_neg hc]
      constructor
      · intro hmem
        simp [stale_key_ne_lock_key (getFullKey cfg.pfx cfg.version key),
          stale_key_ne (getFullKey cfg.pfx cfg.version key)] at hmem
      · rintro ⟨hfb', hlt'⟩
        exact absurd ⟨hfb', by omega, hlt'⟩ hc
  · intro hfb hsle
    have hnlt : ¬ (opts.ttl < opts.staleTtl) := by omega
    have ho1full : fetch (memB V ε) emsg cfg opts key (.ok (some v)) ⟨[], []⟩ [] now =
        ⟨.ok (some v),
          ⟨[(getFullKey cfg.pfx cfg.version key,
              ⟨some v, some (now + (opts.ttl : ℚ) * 1000)⟩)], []⟩,
          [(getFullKey cfg.pfx cfg.version key, ⟨some v, now + 1000⟩)],
          [.miss (getFullKey cfg.pfx cfg.version key),
            .lock ("lock:" ++ getFullKey cfg.pfx cfg.version key)],
          [.get (getFullKey cfg.pfx cfg.version key),
            .lock ("lock:" ++ getFullKey cfg.pfx cfg.version key),
            .set (getFullKey cfg.pfx cfg.version key),
            .unlock ("lock:" ++ getFullKey cfg.pfx cfg.version key)],
          true⟩ := by
      rw [fetch_eq_winnerPath (memB V ε) emsg cfg opts key (.ok (some v))
        ⟨[], []⟩ ⟨[], []⟩ _ [] now rfl hget1 hlock1]
      simp [winnerPath, finallyUnlock, memB, memSet, memUnlock, alistInsert,
        alistErase, httl0, hnlt]
    rw [ho1full]
    have h1le : (1 : ℚ) ≤ (opts.ttl : ℚ) := by exact_mod_cast httl
    have h1000 : (1000 : ℚ) ≤ (opts.ttl : ℚ) * 1000 := by nlinarith
    have hl1b : l1Lookup
        [(getFullKey cfg.pfx cfg.version key, (⟨some v, now + 1000⟩ : L1Item V))]
        (getFullKey cfg.pfx cfg.version key) (now + d) = none := by
      have hng : ¬ (now + 1000 > now + d) := by linarith
      simp [l1Lookup, alistFind, hng]
    have hene : now + (opts.ttl : ℚ) * 1000 ≠ 0 := ne_of_gt (by linarith)
    have hgt : now + d > now + (opts.ttl : ℚ) * 1000 := by linarith
    have hget2 : (memB V ε).get
        (⟨[(getFullKey cfg.pfx cfg.version key,
            ⟨some v, some (now + (opts.ttl : ℚ) * 1000)⟩)], []⟩ : MemState V)
        (now + d) (getFullKey cfg.pfx cfg.version key) =
        .ok (none, ⟨[], []⟩) := by
      simp [memB, memGet, alistFind, alistErase, hene, hgt]
    have hlock2 : (memB V ε).lock (⟨[], []⟩ : MemState V)
        (now + d) ("lock:" ++ getFullKey cfg.pfx cfg.version key)
        ((opts.lockTimeout + 999) / 1000) =
        .ok (true, ⟨[], [("lock:" ++ getFullKey cfg.pfx cfg.version key,
          now + d + ((opts.lockTimeout + 999) / 1000 : Nat) * 1000)]⟩) := rfl
    rw [fetch_eq_winnerPath (memB V ε) emsg cfg opts key (.error e) _ _ _ _ (now + d)
      hl1b hget2 hlock2]
    by_cases hst0 : opts.staleTtl = 0
    · simp [winnerPath, catchPath, finallyUnlock, memB, memUnlock, hst0]
    · simp [winnerPath, catchPath, finallyUnlock, memB, memGet, memUnlock,
        alistFind, hfb, hst0]

/-- Witness for `fetch_stale_copy_iff`: fallback enabled but
`staleTtl ≤ ttl`, with eviction by expiry and a failing second origin
call. -/
theorem fetch_stale_copy_iff_witness :
    (0 < (⟨60, 5000, 30⟩ : CacheFetchOptions).ttl ∧ (0 : ℚ) ≤ 0 ∧
      (((⟨60, 5000, 30⟩ : CacheFetchOptions).ttl : ℚ) * 1000 < 61000)) ∧
    ((BackendCall.set ("stale:" ++ getFullKey
        (⟨"", "", true⟩ : CacheHandlerOptions).pfx
        (⟨"", "", true⟩ : CacheHandlerOptions).version "k") ∈
      (fetch (memB Nat String) id ⟨"", "", true⟩ ⟨60, 5000, 30⟩ "k"
        (.ok (some 42)) ⟨[], []⟩ [] 0).calls ↔
      ((⟨"", "", true⟩ : CacheHandlerOptions).fallbackToStale = true ∧
        (⟨60, 5000, 30⟩ : CacheFetchOptions).ttl <
          (⟨60, 5000, 30⟩ : CacheFetchOptions).staleTtl)) ∧
    ((⟨"", "", true⟩ : CacheHandlerOptions).fallbackToStale = true →
      (⟨60, 5000, 30⟩ : CacheFetchOptions).staleTtl ≤
        (⟨60, 5000, 30⟩ : CacheFetchOptions).ttl →
      (fetch (memB Nat String) id ⟨"", "", true⟩ ⟨60, 5000, 30⟩ "k"
        (.error "err")
        (fetch (memB Nat String) id ⟨"", "", true⟩ ⟨60, 5000, 30⟩ "k"
          (.ok (some 42)) ⟨[], []⟩ [] 0).backend
        (fetch (memB Nat String) id ⟨"", "", true⟩ ⟨60, 5000, 30⟩ "k"
          (.ok (some 42)) ⟨[], []⟩ [] 0).l1
        (0 + 61000)).result = .error (.raw "err"))) :=
  ⟨⟨by norm_num, le_refl 0, by norm_num⟩,
    fetch_stale_copy_iff id ⟨"", "", true⟩ ⟨60, 5000, 30⟩ "k" 42 "err" 0 61000
      (by norm_num) (le_refl 0) (by norm_num) _ _ rfl rfl⟩

theorem memGet_locks_eq {V : Type} (t : ℚ) (k : String) (st : MemState V) :
    ((memGet t k st).2).locks = st.locks := by
  rcases h : alistFind k st.store with _ | item
  · simp [memGet, h]
  · rcases he : item.expiresAt with _ | e₀
    · simp [memGet, h, he]
    · simp only [memGet, h, he]
      split <;> rfl

theorem memGet_value_none {V : Type} (t : ℚ) (k : String) (st : MemState V)
    (item : StoreItem V) (hfind : alistFind k st.store = some item)
    (hval : item.value = none) : (memGet t k st).1 = none := by
  rcases he : item.expiresAt with _ | e₀
  · simp [memGet, hfind, he, hval]
  · simp only [memGet, hfind, he]
    split
    · rfl
    · simpa using hval

theorem catchPath_events_mono {σ V ε : Type} (B : Backend σ V ε)
    (emsg : ε → String) (cfg : CacheHandlerOptions) (opts : CacheFetchOptions)
    (fullKey lockKey : String) (e : ε) (st : σ)
    (l1 : List (String × L1Item V)) (now : ℚ)
    (events : List (CacheLogEvent ε)) (calls : List BackendCall) :
    ∀ ev ∈ events,
      ev ∈ (catchPath B emsg cfg opts fullKey lockKey e st l1 now events calls).events := by
  intro ev hev
  unfold catchPath
  split
  · split
    · exact (finallyUnlock_spec _ _ _ _ _ _ _ _ _).2.2.2.1 ev
        (by exact List.mem_append_left _ (List.mem_append_left _ hev))
    · exact (finallyUnlock_spec _ _ _ _ _ _ _ _ _).2.2.2.1 ev
        (List.mem_append_left _ hev)
    · exact (finallyUnlock_spec _ _ _ _ _ _ _ _ _).2.2.2.1 ev
        (by exact List.mem_append_left _ (List.mem_append_left _ hev))
  · exact (finallyUnlock_spec _ _ _ _ _ _ _ _ _).2.2.2.1 ev
      (List.mem_append_left _ hev)

theorem catchPath_events_sub {σ V ε : Type} (B : Backend σ V ε)
    (emsg : ε → String) (cfg : CacheHandlerOptions) (opts : CacheFetchOptions)
    (fullKey lockKey : String) (e : ε) (st : σ)
    (l1 : List (String × L1Item V)) (now : ℚ)
    (events : List (CacheLogEvent ε)) (calls : List BackendCall) :
    ∀ ev ∈ (catchPath B emsg cfg opts fullKey lockKey e st l1 now events calls).events,
      ev ∈ events ∨ (∃ er, ev = .error fullKey er) ∨
      ev = .hit ("stale:" ++ fullKey) ∨
      (∃ er, ev = .error ("stale:" ++ fullKey) er) ∨
      (∃ er, ev = .error lockKey er) := by
  intro ev hev
  have hfin : ∀ (r : Except (JSErr ε) (Option V)) (st' : σ)
      (evs : List (CacheLogEvent ε)) (cls : List BackendCall),
      ev ∈ (finallyUnlock B emsg lockKey now r st' l1 evs cls).events →
      ev ∈ evs ∨ (∃ er, ev = .error lockKey er) := by
    intro r st' evs cls h
    cases hu : B.unlock st' now lockKey with
    | ok st₅ =>
        simp only [finallyUnlock, hu] at h
        exact Or.inl h
    | error ue =>
        simp only [finallyUnlock, hu] at h
        rcases List.mem_append.mp h with h' | h'
        · exact Or.inl h'
        · rcases List.mem_singleton.mp h' with rfl
          exact Or.inr ⟨_, rfl⟩
  unfold catchPath at hev
  revert hev
  split
  · split <;> intro hev
    · rcases hfin _ _ _ _ hev with h' | h'
      · rcases List.mem_append.mp h' with h'' | h''
        · rcases List.mem_append.mp h'' with h3 | h3
          · exact Or.inl h3
          · rcases List.mem_singleton.mp h3 with rfl
            exact Or.inr (Or.inl ⟨_, rfl⟩)
        · rcases List.mem_singleton.mp h'' with rfl
          exact Or.inr (Or.inr (Or.inl rfl))
      · exact Or.inr (Or.inr (Or.inr (Or.inr h')))
    · rcases hfin _ _ _ _ hev with h' | h'
      · rcases List.mem_append.mp h' with h'' | h''
        · exact Or.inl h''
        · rcases List.mem_singleton.mp h'' with rfl
          exact Or.inr (Or.inl ⟨_, rfl⟩)
      · exact Or.inr (Or.inr (Or.inr (Or.inr h')))
    · rcases hfin _ _ _ _ hev with h' | h'
      · rcases List.mem_append.mp h' with h'' | h''
        · rcases List.mem_append.mp h'' with h3 | h3
          · exact Or.inl h3
          · rcases List.mem_singleton.mp h3 with rfl
            exact Or.inr (Or.inl ⟨_, rfl⟩)
        · rcases List.mem_singleton.mp h'' with rfl
          exact Or.inr (Or.inr (Or.inr (Or.inl ⟨_, rfl⟩)))
      · exact Or.inr (Or.inr (Or.inr (Or.inr h')))
  · intro hev
    rcases hfin _ _ _ _ hev with h' | h'
    · rcases List.mem_append.mp h' with h'' | h''
      · exact Or.inl h''
      · rcases List.mem_singleton.mp h'' with rfl
        exact Or.inr (Or.inl ⟨_, rfl⟩)
    · exact Or.inr (Or.inr (Or.inr (Or.inr h')))

theorem catchPath_originCalled {σ V ε : Type} (B : Backend σ V ε)
    (emsg : ε → String) (cfg : CacheHandlerOptions) (opts : CacheFetchOptions)
    (fullKey lockKey : String) (e : ε) (st : σ)
    (l1 : List (String × L1Item V)) (now : ℚ)
    (events : List (CacheLogEvent ε)) (calls : List BackendCall) :
    (catchPath B emsg cfg opts fullKey lockKey e st l1 now events calls).originCalled = true := by
  unfold catchPath
  split
  · split <;> exact (finallyUnlock_spec _ _ _ _ _ _ _ _ _).2.2.2.2
  · exact (finallyUnlock_spec _ _ _ _ _ _ _ _ _).2.2.2.2

theorem winnerPath_originCalled {σ V ε : Type} (B : Backend σ V ε)
    (emsg : ε → String) (cfg : CacheHandlerOptions) (opts : CacheFetchOptions)
    (fullKey lockKey : String) (fetcherRes : Except ε (Option V)) (st : σ)
    (l1 : List (String × L1Item V)) (now : ℚ) :
    (winnerPath B emsg cfg opts fullKey lockKey fetcherRes st l1 now).originCalled = true := by
  unfold winnerPath
  rcases fetcherRes with e | v
  · exact catchPath_originCalled _ _ _ _ _ _ _ _ _ _ _ _
  · rcases hs : B.set st now fullKey v (some opts.ttl) with e | st₃
    · simp only [hs]
      exact catchPath_originCalled _ _ _ _ _ _ _ _ _ _ _ _
    · simp only [hs]
      split
      · rcases hs2 : B.set st₃ now ("stale:" ++ fullKey) v (some opts.staleTtl) with e2 | st₄ <;>
          simp only [hs2] <;>
          exact (finallyUnlock_spec _ _ _ _ _ _ _ _ _).2.2.2.2
      · exact (finallyUnlock_spec _ _ _ _ _ _ _ _ _).2.2.2.2

theorem winnerPath_miss_mem {σ V ε : Type} (B : Backend σ V ε)
    (emsg : ε → String) (cfg : CacheHandlerOptions) (opts : CacheFetchOptions)
    (fullKey lockKey : String) (fetcherRes : Except ε (Option V)) (st : σ)
    (l1 : List (String × L1Item V)) (now : ℚ) :
    CacheLogEvent.miss fullKey ∈
      (winnerPath B emsg cfg opts fullKey lockKey fetcherRes st l1 now).events := by
  have hmem : CacheLogEvent.miss fullKey ∈
      ([.miss fullKey, .lock lockKey] : List (CacheLogEvent ε)) := by simp
  unfold winnerPath
  rcases fetcherRes with e | v
  · exact catchPath_events_mono _ _ _ _ _ _ _ _ _ _ _ _ _ hmem
  · rcases hs : B.set st now fullKey v (some opts.ttl) with e | st₃
    · simp only [hs]
      exact catchPath_events_mono _ _ _ _ _ _ _ _ _ _ _ _ _ hmem
    · simp only [hs]
      split
      · rcases hs2 : B.set st₃ now ("stale:" ++ fullKey) v (some opts.staleTtl) with e2 | st₄
        · simp only [hs2]
          exact (finallyUnlock_spec _ _ _ _ _ _ _ _ _).2.2.2.1 _
            (List.mem_append_left _ hmem)
        · simp only [hs2]
          exact (finallyUnlock_spec _ _ _ _ _ _ _ _ _).2.2.2.1 _ hmem
      · exact (finallyUnlock_spec _ _ _ _ _ _ _ _ _).2.2.2.1 _ hmem

theorem winnerPath_events_sub {σ V ε : Type} (B : Backend σ V ε)
    (emsg : ε → String) (cfg : CacheHandlerOptions) (opts : CacheFetchOptions)
    (fullKey lockKey : String) (fetcherRes : Except ε (Option V)) (st : σ)
    (l1 : List (String × L1Item V)) (now : ℚ) :
    ∀ ev ∈ (winnerPath B emsg cfg opts fullKey lockKey fetcherRes st l1 now).events,
      ev = .miss fullKey ∨ ev = .lock lockKey ∨
      (∃ er, ev = .error fullKey er) ∨
      ev = .hit ("stale:" ++ fullKey) ∨
      (∃ er, ev = .error ("stale:" ++ fullKey) er) ∨
      (∃ er, ev = .error lockKey er) := by
  intro ev hev
  have hbase : ∀ h : ev ∈ ([.miss fullKey, .lock lockKey] : List (CacheLogEvent ε)),
      ev = CacheLogEvent.miss fullKey ∨ ev = .lock lockKey ∨
      (∃ er, ev = .error fullKey er) ∨
      ev = .hit ("stale:" ++ fullKey) ∨
      (∃ er, ev = .error ("stale:" ++ fullKey) er) ∨
      (∃ er, ev = .error lockKey er) := by
    intro h
    rcases List.mem_cons.mp h with rfl | h'
    · exact Or.inl rfl
    · rcases List.mem_singleton.mp h' with rfl
      exact Or.inr (Or.inl rfl)
  have hcatch : ∀ (e : ε) (st' : σ) (cls : List BackendCall),
      ev ∈ (catchPath B emsg cfg opts fullKey lockKey e st' l1 now
        [.miss fullKey, .lock lockKey] cls).events →
      ev = CacheLogEvent.miss fullKey ∨ ev = .lock lockKey ∨
      (∃ er, ev = .error fullKey er) ∨
      ev = .hit ("stale:" ++ fullKey) ∨
      (∃ er, ev = .error ("stale:" ++ fullKey) er) ∨
      (∃ er, ev = .error lockKey er) := by
    intro e st' cls h
    rcases catchPath_events_sub B emsg cfg opts fullKey lockKey e st' l1 now
        [.miss fullKey, .lock lockKey] cls ev h with h' | h' | h' | h' | h'
    · exact hbase h'
    · exact Or.inr (Or.inr (Or.inl h'))
    · exact Or.inr (Or.inr (Or.inr (Or.inl h')))
    · exact Or.inr (Or.inr (Or.inr (Or.inr (Or.inl h'))))
    · exact Or.inr (Or.inr (Or.inr (Or.inr (Or.inr h'))))
  have hfin : ∀ (r : Except (JSErr ε) (Option V)) (st' : σ)
      (l1' : List (String × L1Item V))
      (evs : List (CacheLogEvent ε)) (cls : List BackendCall),
      ev ∈ (finallyUnlock B emsg lockKey now r st' l1' evs cls).events →
      ev ∈ evs ∨ (∃ er, ev = .error lockKey er) := by
    intro r st' l1' evs cls h
    cases hu : B.unlock st' now lockKey with
    | ok st₅ =>
        simp only [finallyUnlock, hu] at h
        exact Or.inl h
    | error ue =>
        simp only [finallyUnlock, hu] at h
        rcases List.mem_append.mp h with h' | h'
        · exact Or.inl h'
        · rcases List.mem_singleton.mp h' with rfl
          exact Or.inr ⟨_, rfl⟩
  revert hev
  unfold winnerPath
  rcases fetcherRes with e | v
  · exact hcatch e st _
  · rcases hs : B.set st now fullKey v (some opts.ttl) with e | st₃
    · simp only [hs]
      exact hcatch _ st _
    · simp only [hs]
      split
      · rcases hs2 : B.set st₃ now ("stale:" ++ fullKey) v (some opts.staleTtl) with e2 | st₄
        · simp only [hs2]
          intro hev
          rcases hfin _ _ _ _ _ hev with h' | h'
          · rcases List.mem_append.mp h' with h'' | h''
            · exact hbase h''
            · rcases List.mem_singleton.mp h'' with rfl
              exact Or.inr (Or.inr (Or.inr (Or.inr (Or.inl ⟨_, rfl⟩))))
          · exact Or.inr (Or.inr (Or.inr (Or.inr (Or.inr h'))))
        · simp only [hs2]
          intro hev
          rcases hfin _ _ _ _ _ hev with h' | h'
          · exact hbase h'
          · exact Or.inr (Or.inr (Or.inr (Or.inr (Or.inr h'))))
      · intro hev
        rcases hfin _ _ _ _ _ hev with h' | h'
        · exact hbase h'
        · exact Or.inr (Or.inr (Or.inr (Or.inr (Or.inr h'))))

/-- A fetch against the in-memory backend whose stored entry for the key
holds the JavaScript `undefined` (`none`), whose lock map is empty and
whose single L1 entry has expired, behaves as a miss: the winner branch
runs, the origin function is invoked, a MISS event is emitted and no HIT
event for the key can be emitted. -/
theorem fetch_miss_when_stored_undefined {V ε : Type} (emsg : ε → String)
    (cfg : CacheHandlerOptions) (opts : CacheFetchOptions) (key : String)
    (now' : ℚ) (st : MemState V) (item : StoreItem V)
    (hfind : alistFind (getFullKey cfg.pfx cfg.version key) st.store = some item)
    (hval : item.value = none)
    (hlocks : st.locks = [])
    (l1e : ℚ) (hl1e : l1e ≤ now') (vv : Option V)
    (fr₂ : Except ε (Option V)) :
    (fetch (memB V ε) emsg cfg opts key fr₂ st
      [(getFullKey cfg.pfx cfg.version key, ⟨vv, l1e⟩)] now').originCalled = true ∧
    CacheLogEvent.miss (getFullKey cfg.pfx cfg.version key) ∈
      (fetch (memB V ε) emsg cfg opts key fr₂ st
        [(getFullKey cfg.pfx cfg.version key, ⟨vv, l1e⟩)] now').events ∧
    CacheLogEvent.hit (getFullKey cfg.pfx cfg.version key) ∉
      (fetch (memB V ε) emsg cfg opts key fr₂ st
        [(getFullKey cfg.pfx cfg.version key, ⟨vv, l1e⟩)] now').events := by
  have hl1b : l1Lookup [(getFullKey cfg.pfx cfg.version key, (⟨vv, l1e⟩ : L1Item V))]
      (getFullKey cfg.pfx cfg.version key) now' = none := by
    have hng : ¬ (l1e > now') := by linarith
    simp [l1Lookup, alistFind, hng]
  rcases hmg : memGet now' (getFullKey cfg.pfx cfg.version key) st with ⟨r, st'⟩
  have hr : r = none := by
    have h := memGet_value_none now' (getFullKey cfg.pfx cfg.version key) st item hfind hval
    rw [hmg] at h
    exact h
  subst hr
  have hget2 : (memB V ε).get st now' (getFullKey cfg.pfx cfg.version key) =
      .ok (none, st') := by
    have : (memB V ε).get st now' (getFullKey cfg.pfx cfg.version key) =
        .ok (memGet now' (getFullKey cfg.pfx cfg.version key) st) := rfl
    rw [this, hmg]
  have hlocks' : st'.locks = [] := by
    have h := memGet_locks_eq now' (getFullKey cfg.pfx cfg.version key) st
    rw [hmg] at h
    rw [h, hlocks]
  have hlock2 : (memB V ε).lock st' now'
      ("lock:" ++ getFullKey cfg.pfx cfg.version key)
      ((opts.lockTimeout + 999) / 1000) =
      .ok (true, ⟨st'.store, alistInsert ("lock:" ++ getFullKey cfg.pfx cfg.version key)
        (now' + ((opts.lockTimeout + 999) / 1000 : Nat) * 1000) st'.locks⟩) := by
    simp [memB, memLock, hlocks', alistFind]
  rw [fetch_eq_winnerPath (memB V ε) emsg cfg opts key fr₂ st st' _ _ now'
    hl1b hget2 hlock2]
  refine ⟨winnerPath_originCalled _ _ _ _ _ _ _ _ _ _,
    winnerPath_miss_mem _ _ _ _ _ _ _ _ _ _, ?_⟩
  intro hmem
  rcases winnerPath_events_sub _ _ _ _ _ _ _ _ _ _ _ hmem with
    h | h | ⟨er, h⟩ | h | ⟨er, h⟩ | ⟨er, h⟩ <;>
    simp [stale_key_ne (getFullKey cfg.pfx cfg.version key),
      Ne.symm (stale_key_ne (getFullKey cfg.pfx cfg.version key)),
      Ne.symm (lock_key_ne (getFullKey cfg.pfx cfg.version key))] at h

/-- C10: if the origin function resolves to `undefined`, `fetch` returns
`undefined` and writes the entry, but the stored entry reads back as
`undefined` — indistinguishable from absence — at every later instant;
hence once the L1 entry has expired, every subsequent fetch observes a
miss and invokes the origin function again, and no backend HIT for the key
can be served. -/
theorem fetch_undefined_origin_value {V ε : Type} (emsg : ε → String)
    (cfg : CacheHandlerOptions) (opts : CacheFetchOptions) (key : String)
    (now : ℚ) (httl : 0 < opts.ttl)
    (o₁ : Outcome (MemState V) V ε)
    (ho₁ : o₁ = fetch (memB V ε) emsg cfg opts key (.ok none) ⟨[], []⟩ [] now) :
    o₁.result = .ok none ∧
    BackendCall.set (getFullKey cfg.pfx cfg.version key) ∈ o₁.calls ∧
    (∀ t : ℚ, (memGet t (getFullKey cfg.pfx cfg.version key) o₁.backend).1 = none) ∧
    (∀ now' : ℚ, now + 1000 ≤ now' → ∀ fr₂ : Except ε (Option V),
      (fetch (memB V ε) emsg cfg opts key fr₂ o₁.backend o₁.l1 now').originCalled = true ∧
      CacheLogEvent.miss (getFullKey cfg.pfx cfg.version key) ∈
        (fetch (memB V ε) emsg cfg opts key fr₂ o₁.backend o₁.l1 now').events ∧
      CacheLogEvent.hit (getFullKey cfg.pfx cfg.version key) ∉
        (fetch (memB V ε) emsg cfg opts key fr₂ o₁.backend o₁.l1 now').events) := by
  have httl0 : opts.ttl ≠ 0 := by omega
  have hget1 : (memB V ε).get (⟨[], []⟩ : MemState V) now
      (getFullKey cfg.pfx cfg.version key) = .ok (none, ⟨[], []⟩) := rfl
  have hlock1 : (memB V ε).lock (⟨[], []⟩ : MemState V) now
      ("lock:" ++ getFullKey cfg.pfx cfg.version key)
      ((opts.lockTimeout + 999) / 1000) =
      .ok (true, ⟨[], [("lock:" ++ getFullKey cfg.pfx cfg.version key,
        now + ((opts.lockTimeout + 999) / 1000 : Nat) * 1000)]⟩) := rfl
  by_cases hc : cfg.fallbackToStale = true ∧ opts.staleTtl ≠ 0 ∧
      opts.ttl < opts.staleTtl
  · have ho1full : fetch (memB V ε) emsg cfg opts key (.ok none) ⟨[], []⟩ [] now =
        ⟨.ok none,
          ⟨[("stale:" ++ getFullKey cfg.pfx cfg.version key,
              ⟨none, some (now + (opts.staleTtl : ℚ) * 1000)⟩),
            (getFullKey cfg.pfx cfg.version key,
              ⟨none, some (now + (opts.ttl : ℚ) * 1000)⟩)], []⟩,
          [(getFullKey cfg.pfx cfg.version key, ⟨none, now + 1000⟩)],
          [.miss (getFullKey cfg.pfx cfg.version key),
            .lock ("lock:" ++ getFullKey cfg.pfx cfg.version key)],
          [.get (getFullKey cfg.pfx cfg.version key),
            .lock ("lock:" ++ getFullKey cfg.pfx cfg.version key),
            .set (getFullKey cfg.pfx cfg.version key),
            .set ("stale:" ++ getFullKey cfg.pfx cfg.version key),
            .unlock ("lock:" ++ getFullKey cfg.pfx cfg.version key)],
          true⟩ := by
      rw [fetch_eq_winnerPath (memB V ε) emsg cfg opts key (.ok none)
        ⟨[], []⟩ ⟨[], []⟩ _ [] now rfl hget1 hlock1]
      simp [winnerPath, finallyUnlock, memB, memSet, memUnlock, alistInsert,
        alistErase, httl0, hc.1, hc.2.1, hc.2.2,
        Ne.symm (stale_key_ne (getFullKey cfg.pfx cfg.version key))]
    subst ho₁
    rw [ho1full]
    refine ⟨rfl, by simp, ?_, ?_⟩
    · intro t
      exact memGet_value_none t _ _ ⟨none, some (now + (opts.ttl : ℚ) * 1000)⟩
        (by simp [alistFind, stale_key_ne (getFullKey cfg.pfx cfg.version key)]) rfl
    · intro now' hnow' fr₂
      exact fetch_miss_when_stored_undefined emsg cfg opts key now' _
        ⟨none, some (now + (opts.ttl : ℚ) * 1000)⟩
        (by simp [alistFind, stale_key_ne (getFullKey cfg.pfx cfg.version key)]) rfl rfl
        (now + 1000) hnow' none fr₂
  · have ho1full : fetch (memB V ε) emsg cfg opts key (.ok none) ⟨[], []⟩ [] now =
        ⟨.ok none,
          ⟨[(getFullKey cfg.pfx cfg.version key,
              ⟨none, some (now + (opts.ttl : ℚ) * 1000)⟩)], []⟩,
          [(getFullKey cfg.pfx cfg.version key, ⟨none, now + 1000⟩)],
          [.miss (getFullKey cfg.pfx cfg.version key),
            .lock ("lock:" ++ getFullKey cfg.pfx cfg.version key)],
          [.get (getFullKey cfg.pfx cfg.version key),
            .lock ("lock:" ++ getFullKey cfg.pfx cfg.version key),
            .set (getFullKey cfg.pfx cfg.version key),
            .unlock ("lock:" ++ getFullKey cfg.pfx cfg.version key)],
          true⟩ := by
      rw [fetch_eq_winnerPath (memB V ε) emsg cfg opts key (.ok none)
        ⟨[], []⟩ ⟨[], []⟩ _ [] now rfl hget1 hlock1]
      simp [winnerPath, finallyUnlock, memB, memSet, memUnlock, alistInsert,
        alistErase, httl0, hc]
    subst ho₁
    rw [ho1full]
    refine ⟨rfl, by simp, ?_, ?_⟩
    · intro t
      exact memGet_value_none t _ _ ⟨none, some (now + (opts.ttl : ℚ) * 1000)⟩
        (by simp [alistFind]) rfl
    · intro now' hnow' fr₂
      exact fetch_miss_when_stored_undefined emsg cfg opts key now' _
        ⟨none, some (now + (opts.ttl : ℚ) * 1000)⟩
        (by simp [alistFind]) rfl rfl (now + 1000) hnow' none fr₂

/-- Witness for `fetch_undefined_origin_value`: an origin resolving to
`undefined` under the default options. -/
theorem fetch_undefined_origin_value_witness :
    (0 < DEFAULT_FETCH_OPTIONS.ttl) ∧
    ((fetch (memB Nat String) id ⟨"", "", false⟩ DEFAULT_FETCH_OPTIONS "k"
        (.ok none) ⟨[], []⟩ [] 0).result = .ok none ∧
      BackendCall.set (getFullKey (⟨"", "", false⟩ : CacheHandlerOptions).pfx
          (⟨"", "", false⟩ : CacheHandlerOptions).version "k") ∈
        (fetch (memB Nat String) id ⟨"", "", false⟩ DEFAULT_FETCH_OPTIONS "k"
          (.ok none) ⟨[], []⟩ [] 0).calls ∧
      (∀ t : ℚ, (memGet t (getFullKey (⟨"", "", false⟩ : CacheHandlerOptions).pfx
          (⟨"", "", false⟩ : CacheHandlerOptions).version "k")
          (fetch (memB Nat String) id ⟨"", "", false⟩ DEFAULT_FETCH_OPTIONS "k"
            (.ok none) ⟨[], []⟩ [] 0).backend).1 = none) ∧
      (∀ now' : ℚ, (0 : ℚ) + 1000 ≤ now' → ∀ fr₂ : Except String (Option Nat),
        (fetch (memB Nat String) id ⟨"", "", false⟩ DEFAULT_FETCH_OPTIONS "k" fr₂
          (fetch (memB Nat String) id ⟨"", "", false⟩ DEFAULT_FETCH_OPTIONS "k"
            (.ok none) ⟨[], []⟩ [] 0).backend
          (fetch (memB Nat String) id ⟨"", "", false⟩ DEFAULT_FETCH_OPTIONS "k"
            (.ok none) ⟨[], []⟩ [] 0).l1 now').originCalled = true ∧
        CacheLogEvent.miss (getFullKey (⟨"", "", false⟩ : CacheHandlerOptions).pfx
            (⟨"", "", false⟩ : CacheHandlerOptions).version "k") ∈
          (fetch (memB Nat String) id ⟨"", "", false⟩ DEFAULT_FETCH_OPTIONS "k" fr₂
            (fetch (memB Nat String) id ⟨"", "", false⟩ DEFAULT_FETCH_OPTIONS "k"
              (.ok none) ⟨[], []⟩ [] 0).backend
            (fetch (memB Nat String) id ⟨"", "", false⟩ DEFAULT_FETCH_OPTIONS "k"
              (.ok none) ⟨[], []⟩ [] 0).l1 now').events ∧
        CacheLogEvent.hit (getFullKey (⟨"", "", false⟩ : CacheHandlerOptions).pfx
            (⟨"", "", false⟩ : CacheHandlerOptions).version "k") ∉
          (fetch (memB Nat String) id ⟨"", "", false⟩ DEFAULT_FETCH_OPTIONS "k" fr₂
            (fetch (memB Nat String) id ⟨"", "", false⟩ DEFAULT_FETCH_OPTIONS "k"
              (.ok none) ⟨[], []⟩ [] 0).backend
            (fetch (memB Nat String) id ⟨"", "", false⟩ DEFAULT_FETCH_OPTIONS "k"
              (.ok none) ⟨[], []⟩ [] 0).l1 now').events)) :=
  ⟨by norm_num [DEFAULT_FETCH_OPTIONS],
    fetch_undefined_origin_value id ⟨"", "", false⟩ DEFAULT_FETCH_OPTIONS "k" 0
      (by norm_num [DEFAULT_FETCH_OPTIONS]) _ rfl⟩

theorem finallyUnlock_l1_indep {σ V ε : Type} (B : Backend σ V ε)
    (emsg : ε → String) (lockKey : String) (now : ℚ)
    (result : Except (JSErr ε) (Option V)) (st : σ)
    (l1 l1' : List (String × L1Item V)) (events : List (CacheLogEvent ε))
    (calls : List BackendCall) :
    finallyUnlock B emsg lockKey now result st l1 events calls =
      { finallyUnlock B emsg lockKey now result st l1' events calls with l1 := l1 } := by
  cases hu : B.unlock st now lockKey <;> simp [finallyUnlock, hu]

theorem catchPath_l1_indep {σ V ε : Type} (B : Backend σ V ε)
    (emsg : ε → String) (cfg : CacheHandlerOptions) (opts : CacheFetchOptions)
    (fullKey lockKey : String) (e : ε) (st : σ)
    (l1 l1' : List (String × L1Item V)) (now : ℚ)
    (events : List (CacheLogEvent ε)) (calls : List BackendCall) :
    catchPath B emsg cfg opts fullKey lockKey e st l1 now events calls =
      { catchPath B emsg cfg opts fullKey lockKey e st l1' now events calls with l1 := l1 } := by
  unfold catchPath
  split
  · rcases hg : B.get st now ("stale:" ++ fullKey) with se | ⟨_ | sv, st'⟩ <;>
      simp only [hg] <;>
      exact finallyUnlock_l1_indep _ _ _ _ _ _ _ _ _ _
  · exact finallyUnlock_l1_indep _ _ _ _ _ _ _ _ _ _

theorem winnerPathNoL1_eq {σ V ε : Type} (B : Backend σ V ε)
    (emsg : ε → String) (cfg : CacheHandlerOptions) (opts : CacheFetchOptions)
    (fullKey lockKey : String) (fetcherRes : Except ε (Option V)) (st : σ)
    (l1 : List (String × L1Item V)) (now : ℚ) :
    winnerPathNoL1 B emsg cfg opts fullKey lockKey fetcherRes st now =
      { winnerPath B emsg cfg opts fullKey lockKey fetcherRes st l1 now with l1 := [] } := by
  unfold winnerPath winnerPathNoL1
  rcases fetcherRes with e | v
  · exact catchPath_l1_indep _ _ _ _ _ _ _ _ _ _ _ _ _
  · rcases hs : B.set st now fullKey v (some opts.ttl) with e | st₃
    · simp only [hs]
      exact catchPath_l1_indep _ _ _ _ _ _ _ _ _ _ _ _ _
    · simp only [hs]
      split
      · rcases hs2 : B.set st₃ now ("stale:" ++ fullKey) v (some opts.staleTtl) with e2 | st₄ <;>
          simp only [hs2] <;>
          exact finallyUnlock_l1_indep _ _ _ _ _ _ _ _ _ _
      · exact finallyUnlock_l1_indep _ _ _ _ _ _ _ _ _ _

theorem pollLoop_l1_indep {σ V ε : Type} (B : Backend σ V ε)
    (key fullKey : String) (start : ℚ) (T : Nat)
    (l1 l1' : List (String × L1Item V)) :
    ∀ (interval now : ℚ) (hi : 50 ≤ interval) (st : σ)
      (events : List (CacheLogEvent ε)) (calls : List BackendCall),
      pollLoop B key fullKey start T l1 interval now hi st events calls =
        { pollLoop B key fullKey start T l1' interval now hi st events calls with l1 := l1 } := by
  refine pollLoop.induct B key fullKey start T l1
    (motive := fun interval now hi st events calls =>
      pollLoop B key fullKey start T l1 interval now hi st events calls =
        { pollLoop B key fullKey start T l1' interval now hi st events calls with l1 := l1 })
    ?_ ?_ ?_ ?_
  · intro interval now hi st events calls hlt v st' hget
    rw [pollLoop.eq_def, dif_pos hlt, hget,
      pollLoop.eq_def B key fullKey start T l1', dif_pos hlt, hget]
  · intro interval now hi st events calls hlt st' hget ih
    rw [pollLoop.eq_def, dif_pos hlt, hget,
      pollLoop.eq_def B key fullKey start T l1', dif_pos hlt, hget]
    exact ih
  · intro interval now hi st events calls hlt e hget ih
    rw [pollLoop.eq_def, dif_pos hlt, hget,
      pollLoop.eq_def B key fullKey start T l1', dif_pos hlt, hget]
    exact ih
  · intro interval now hi st events calls hlt
    rw [pollLoop.eq_def, dif_neg hlt, pollLoop.eq_def B key fullKey start T l1', dif_neg hlt]

/-- C7 (amended): per call, whenever the handler's transient L1 cache
holds no live entry for the requested key, the handler with the L1 layer
and the identical handler without it produce the same result, the same
final backend state, the same events, the same backend-call trace and the
same origin-invocation behaviour; they differ only in the L1 state they
carry.  (With a live L1 entry the two can differ observably; see the
accompanying counterexample.) -/
theorem fetch_agrees_without_l1 {σ V ε : Type} (B : Backend σ V ε)
    (emsg : ε → String) (cfg : CacheHandlerOptions) (opts : CacheFetchOptions)
    (key : String) (fetcherRes : Except ε (Option V)) (st : σ)
    (l1 : List (String × L1Item V)) (now : ℚ)
    (hl1 : l1Lookup l1 (getFullKey cfg.pfx cfg.version key) now = none) :
    (fetch B emsg cfg opts key fetcherRes st l1 now).result =
      (fetchWithoutL1 B emsg cfg opts key fetcherRes st now).result ∧
    (fetch B emsg cfg opts key fetcherRes st l1 now).backend =
      (fetchWithoutL1 B emsg cfg opts key fetcherRes st now).backend ∧
    (fetch B emsg cfg opts key fetcherRes st l1 now).events =
      (fetchWithoutL1 B emsg cfg opts key fetcherRes st now).events ∧
    (fetch B emsg cfg opts key fetcherRes st l1 now).calls =
      (fetchWithoutL1 B emsg cfg opts key fetcherRes st now).calls ∧
    (fetch B emsg cfg opts key fetcherRes st l1 now).originCalled =
      (fetchWithoutL1 B emsg cfg opts key fetcherRes st now).originCalled := by
  simp only [fetch, fetchWithoutL1, hl1]
  rcases hg : B.get st now (getFullKey cfg.pfx cfg.version key) with e | ⟨_ | v, st₁⟩
  · exact ⟨rfl, rfl, rfl, rfl, rfl⟩
  · dsimp only
    rcases hlk : B.lock st₁ now ("lock:" ++ getFullKey cfg.pfx cfg.version key)
        ((opts.lockTimeout + 999) / 1000) with e | ⟨acq, st₂⟩
    · simp [hlk]
    · simp only [hlk]
      cases acq
      · simp only [if_false, Bool.false_eq_true]
        rw [waiterPath, waiterPath,
          pollLoop_l1_indep B key (getFullKey cfg.pfx cfg.version key) now
            opts.lockTimeout l1 []]
        exact ⟨rfl, rfl, rfl, rfl, rfl⟩
      · simp only [if_true]
        rw [winnerPathNoL1_eq B emsg cfg opts
          (getFullKey cfg.pfx cfg.version key)
          ("lock:" ++ getFullKey cfg.pfx cfg.version key) fetcherRes st₂ l1 now]
        exact ⟨rfl, rfl, rfl, rfl, rfl⟩
  · exact ⟨rfl, rfl, rfl, rfl, rfl⟩

/-- Witness for `fetch_agrees_without_l1` at a concrete state with an
empty L1 cache. -/
theorem fetch_agrees_without_l1_witness :
    (l1Lookup ([] : List (String × L1Item Nat)) (getFullKey "" "" "k") 0 = none) ∧
    ((fetch (memB Nat String) id ⟨"", "", false⟩ DEFAULT_FETCH_OPTIONS "k"
        (.ok (some 7)) ⟨[], []⟩ [] 0).result =
      (fetchWithoutL1 (memB Nat String) id ⟨"", "", false⟩ DEFAULT_FETCH_OPTIONS "k"
        (.ok (some 7)) ⟨[], []⟩ 0).result ∧
      (fetch (memB Nat String) id ⟨"", "", false⟩ DEFAULT_FETCH_OPTIONS "k"
        (.ok (some 7)) ⟨[], []⟩ [] 0).backend =
      (fetchWithoutL1 (memB Nat String) id ⟨"", "", false⟩ DEFAULT_FETCH_OPTIONS "k"
        (.ok (some 7)) ⟨[], []⟩ 0).backend ∧
      (fetch (memB Nat String) id ⟨"", "", false⟩ DEFAULT_FETCH_OPTIONS "k"
        (.ok (some 7)) ⟨[], []⟩ [] 0).events =
      (fetchWithoutL1 (memB Nat String) id ⟨"", "", false⟩ DEFAULT_FETCH_OPTIONS "k"
        (.ok (some 7)) ⟨[], []⟩ 0).events ∧
      (fetch (memB Nat String) id ⟨"", "", false⟩ DEFAULT_FETCH_OPTIONS "k"
        (.ok (some 7)) ⟨[], []⟩ [] 0).calls =
      (fetchWithoutL1 (memB Nat String) id ⟨"", "", false⟩ DEFAULT_FETCH_OPTIONS "k"
        (.ok (some 7)) ⟨[], []⟩ 0).calls ∧
      (fetch (memB Nat String) id ⟨"", "", false⟩ DEFAULT_FETCH_OPTIONS "k"
        (.ok (some 7)) ⟨[], []⟩ [] 0).originCalled =
      (fetchWithoutL1 (memB Nat String) id ⟨"", "", false⟩ DEFAULT_FETCH_OPTIONS "k"
        (.ok (some 7)) ⟨[], []⟩ 0).originCalled) :=
  ⟨rfl, fetch_agrees_without_l1 (memB Nat String) id ⟨"", "", false⟩
    DEFAULT_FETCH_OPTIONS "k" (.ok (some 7)) ⟨[], []⟩ [] 0 rfl⟩

/-- C7 is refuted as literally stated: the L1 layer can change the
observable result.  Starting from a backend that holds `1` under `"k"`,
both handlers first return `1`; then the entry is deleted directly on the
backend and the origin now produces `2`.  Within the one-second L1
window the handler with the L1 cache still returns the old value `1`,
while the identical handler without it returns `2`. -/
theorem l1_cache_changes_observable_result :
    (fetch (memB Nat String) id ⟨"", "", false⟩ DEFAULT_FETCH_OPTIONS "k"
      (.ok (some 2))
      (memDel "k"
        (fetch (memB Nat String) id ⟨"", "", false⟩ DEFAULT_FETCH_OPTIONS "k"
          (.ok (some 99)) ⟨[("k", ⟨some 1, none⟩)], []⟩ [] 0).backend)
      (fetch (memB Nat String) id ⟨"", "", false⟩ DEFAULT_FETCH_OPTIONS "k"
        (.ok (some 99)) ⟨[("k", ⟨some 1, none⟩)], []⟩ [] 0).l1
      500).result = .ok (some 1) ∧
    (fetchWithoutL1 (memB Nat String) id ⟨"", "", false⟩ DEFAULT_FETCH_OPTIONS "k"
      (.ok (some 2))
      (memDel "k"
        (fetchWithoutL1 (memB Nat String) id ⟨"", "", false⟩ DEFAULT_FETCH_OPTIONS "k"
          (.ok (some 99)) ⟨[("k", ⟨some 1, none⟩)], []⟩ 0).backend)
      500).result = .ok (some 2) ∧
    (fetch (memB Nat String) id ⟨"", "", false⟩ DEFAULT_FETCH_OPTIONS "k"
      (.ok (some 2))
      (memDel "k"
        (fetch (memB Nat String) id ⟨"", "", false⟩ DEFAULT_FETCH_OPTIONS "k"
          (.ok (some 99)) ⟨[("k", ⟨some 1, none⟩)], []⟩ [] 0).backend)
      (fetch (memB Nat String) id ⟨"", "", false⟩ DEFAULT_FETCH_OPTIONS "k"
        (.ok (some 99)) ⟨[("k", ⟨some 1, none⟩)], []⟩ [] 0).l1
      500).result ≠
    (fetchWithoutL1 (memB Nat String) id ⟨"", "", false⟩ DEFAULT_FETCH_OPTIONS "k"
      (.ok (some 2))
      (memDel "k"
        (fetchWithoutL1 (memB Nat String) id ⟨"", "", false⟩ DEFAULT_FETCH_OPTIONS "k"
          (.ok (some 99)) ⟨[("k", ⟨some 1, none⟩)], []⟩ 0).backend)
      500).result := by
  have hfk : getFullKey "" "" "k" = "k" := rfl
  have h1 : (fetch (memB Nat String) id ⟨"", "", false⟩ DEFAULT_FETCH_OPTIONS "k"
      (.ok (some 99)) ⟨[("k", ⟨some 1, none⟩)], []⟩ [] 0) =
      ⟨.ok (some 1), ⟨[("k", ⟨some 1, none⟩)], []⟩,
        [("k", ⟨some 1, 1000⟩)], [.hit "k"], [.get "k"], false⟩ := by
    simp [fetch, l1Lookup, alistFind, memB, memGet, alistInsert, hfk]
  have hdel : memDel "k" (⟨[("k", ⟨some 1, none⟩)], []⟩ : MemState Nat) =
      ⟨[], []⟩ := by
    simp [memDel, alistErase]
  have h2 : (fetch (memB Nat String) id ⟨"", "", false⟩ DEFAULT_FETCH_OPTIONS "k"
      (.ok (some 2)) ⟨[], []⟩ [("k", ⟨some 1, 1000⟩)] 500).result = .ok (some 1) := by
    have hcond : (1000 : ℚ) > 500 := by norm_num
    simp [fetch, l1Lookup, alistFind, hfk, hcond]
  have h3 : (fetchWithoutL1 (memB Nat String) id ⟨"", "", false⟩ DEFAULT_FETCH_OPTIONS "k"
      (.ok (some 99)) ⟨[("k", ⟨some 1, none⟩)], []⟩ 0) =
      ⟨.ok (some 1), ⟨[("k", ⟨some 1, none⟩)], []⟩, [], [.hit "k"], [.get "k"],
        false⟩ := by
    simp [fetchWithoutL1, memB, memGet, alistFind, hfk]
  have h4 : (fetchWithoutL1 (memB Nat String) id ⟨"", "", false⟩ DEFAULT_FETCH_OPTIONS "k"
      (.ok (some 2)) ⟨[], []⟩ 500).result = .ok (some 2) := by
    simp [fetchWithoutL1, winnerPathNoL1, finallyUnlock, memB, memGet, memSet,
      memLock, memUnlock, alistFind, alistInsert, alistErase, hfk,
      DEFAULT_FETCH_OPTIONS]
  rw [h1, h3, hdel]
  exact ⟨h2, h4, by rw [h2, h4]; decide⟩

/-- C9: `getFullKey` deterministically joins the non-empty segments of
prefix, version and logical key in that fixed order with the `:`
delimiter, skipping empty segments; in particular
`(​"app", "v1", "posts") ↦ "app:v1:posts"` and
`("", "", "posts") ↦ "posts"`. -/
theorem getFullKey_spec :
    (∀ p v k : String, p ≠ "" → v ≠ "" → k ≠ "" →
        getFullKey p v k = p ++ ":" ++ v ++ ":" ++ k) ∧
    (∀ k : String, getFullKey "" "" k = k) ∧
    getFullKey "app" "v1" "posts" = "app:v1:posts" ∧
    getFullKey "" "" "posts" = "posts" := by
  refine ⟨?_, ?_, by decide, by decide⟩
  · intro p v k hp hv hk
    have hf : ([p, v, k]).filter (fun s => s ≠ "") = [p, v, k] := by
      simp [List.filter_cons, hp, hv, hk]
    rw [getFullKey, hf]
    rfl
  · intro k
    by_cases hk : k = ""
    · subst hk; decide
    · have hf : (["", "", k]).filter (fun s => s ≠ "") = [k] := by
        simp [List.filter_cons, hk]
      rw [getFullKey, hf]
      rfl

/-- Witness for `getFullKey_spec`: its universally quantified part applied
at concrete non-empty segments. -/
theorem getFullKey_spec_witness :
    (("a" : String) ≠ "" ∧ ("b" : String) ≠ "" ∧ ("c" : String) ≠ "") ∧
    getFullKey "a" "b" "c" = "a:b:c" :=
  ⟨⟨by decide, by decide, by decide⟩,
    getFullKey_spec.1 "a" "b" "c" (by decide) (by decide) (by decide)⟩

/-- C2: when the backend holds a present, unexpired entry for the key and
the handler's transient L1 cache holds no live entry for it, `fetch`
returns the cached value, emits exactly one HIT event, never invokes the
origin function, and performs only the single backend read — in
particular it never attempts to acquire a lock. -/
theorem fetch_hit_serves_cache {V ε : Type} (emsg : ε → String)
    (cfg : CacheHandlerOptions) (opts : CacheFetchOptions) (key : String)
    (fetcherRes : Except ε (Option V)) (st : MemState V)
    (l1 : List (String × L1Item V)) (now : ℚ) (v : V)
    (hl1 : l1Lookup l1 (getFullKey cfg.pfx cfg.version key) now = none)
    (hget : (memGet now (getFullKey cfg.pfx cfg.version key) st).1 = some v) :
    (fetch (memB V ε) emsg cfg opts key fetcherRes st l1 now).result = .ok (some v) ∧
    (fetch (memB V ε) emsg cfg opts key fetcherRes st l1 now).events =
      [.hit (getFullKey cfg.pfx cfg.version key)] ∧
    (fetch (memB V ε) emsg cfg opts key fetcherRes st l1 now).originCalled = false ∧
    (fetch (memB V ε) emsg cfg opts key fetcherRes st l1 now).calls =
      [.get (getFullKey cfg.pfx cfg.version key)] ∧
    ∀ k, BackendCall.lock k ∉ (fetch (memB V ε) emsg cfg opts key fetcherRes st l1 now).calls := by
  rcases hmg : memGet now (getFullKey cfg.pfx cfg.version key) st with ⟨r, st₂⟩
  rw [hmg] at hget
  simp only at hget
  subst hget
  simp [fetch, hl1, memB, hmg]

/-- C8 (evidence): `RedisCacheBackend.get` of `src/backends/redis.ts`
does not raise a Serialization error on an undecodable payload: whenever
the client returns a stored string on which decoding fails, the function
swallows the failure and returns `undefined` — an absence result
indistinguishable from a missing key, contradicting the repository's own
tests which expect a `CacheSerializationError`. -/
theorem redisGet_swallows_decode_failure {V ε : Type}
    (decode : String → Option V)
    (clientGet : String → Except ε (Option String)) (pfx key s : String)
    (hstored : clientGet (if pfx ≠ "" then pfx ++ ":" ++ key else key) =
      .ok (some s))
    (hundec : decode s = none) :
    redisGet decode clientGet pfx key = .ok none := by
  simp only [redisGet, hstored, hundec]

/-- Witness for `redisGet_swallows_decode_failure` at the repository's own
failing test input: payload `"invalid-json"` stored under
`"test-key"`. -/
theorem redisGet_swallows_decode_failure_witness :
    ((fun _ : String => (.ok (some "invalid-json") : Except String (Option String)))
        (if ("" : String) ≠ "" then "" ++ ":" ++ "test-key" else "test-key") =
      .ok (some "invalid-json") ∧
      (fun _ : String => (none : Option Nat)) "invalid-json" = none) ∧
    redisGet (fun _ : String => (none : Option Nat))
      (fun _ : String => (.ok (some "invalid-json") : Except String (Option String)))
      "" "test-key" = .ok none :=
  ⟨⟨rfl, rfl⟩, redisGet_swallows_decode_failure _ _ "" "test-key" "invalid-json"
    rfl rfl⟩

/-- The in-memory backend's lock operation is an atomic check-and-set:
when an acquisition succeeds, any later acquisition of the same key that
happens before the first one's TTL has elapsed fails.  This is the
single-flight heart that the fetch orchestrator relies on. -/
theorem memLock_mutual_exclusion {V : Type} (st : MemState V) (k : String)
    (ttl₁ ttl₂ : Nat) (t₁ t₂ : ℚ)
    (h1 : (memLock t₁ k ttl₁ st).1 = true)
    (hwin : t₂ < t₁ + (ttl₁ : ℚ) * 1000) :
    (memLock t₂ k ttl₂ (memLock t₁ k ttl₁ st).2).1 = false := by
  have hlocks : ((memLock t₁ k ttl₁ st).2).locks =
      alistInsert k (t₁ + (ttl₁ : ℚ) * 1000) st.locks := by
    rcases hf : alistFind k st.locks with _ | e
    · simp [memLock, hf]
    · simp only [memLock, hf] at h1 ⊢
      by_cases hc : e > t₁
      · rw [if_pos hc] at h1
        exact absurd h1 (by simp)
      · rw [if_neg hc]
  generalize hg : (memLock t₁ k ttl₁ st).2 = st₂ at hlocks ⊢
  simp [memLock, hlocks, alistFind_insert_self, hwin]

/-- Witness for `fetch_hit_serves_cache`: a present, unexpired entry under
`"app:v1:posts"` and an empty L1 cache. -/
theorem fetch_hit_serves_cache_witness :
    (l1Lookup ([] : List (String × L1Item Nat))
        (getFullKey (⟨"app", "v1", false⟩ : CacheHandlerOptions).pfx
          (⟨"app", "v1", false⟩ : CacheHandlerOptions).version "posts") 0 = none ∧
      (memGet 0 (getFullKey (⟨"app", "v1", false⟩ : CacheHandlerOptions).pfx
          (⟨"app", "v1", false⟩ : CacheHandlerOptions).version "posts")
        (⟨[("app:v1:posts", ⟨some 7, none⟩)], []⟩ : MemState Nat)).1 = some 7) ∧
    ((fetch (memB Nat String) id ⟨"app", "v1", false⟩ DEFAULT_FETCH_OPTIONS "posts"
        (.ok (some 0)) ⟨[("app:v1:posts", ⟨some 7, none⟩)], []⟩ [] 0).result =
      .ok (some 7) ∧
      (fetch (memB Nat String) id ⟨"app", "v1", false⟩ DEFAULT_FETCH_OPTIONS "posts"
        (.ok (some 0)) ⟨[("app:v1:posts", ⟨some 7, none⟩)], []⟩ [] 0).events =
      [.hit (getFullKey (⟨"app", "v1", false⟩ : CacheHandlerOptions).pfx
        (⟨"app", "v1", false⟩ : CacheHandlerOptions).version "posts")] ∧
      (fetch (memB Nat String) id ⟨"app", "v1", false⟩ DEFAULT_FETCH_OPTIONS "posts"
        (.ok (some 0)) ⟨[("app:v1:posts", ⟨some 7, none⟩)], []⟩ [] 0).originCalled =
      false ∧
      (fetch (memB Nat String) id ⟨"app", "v1", false⟩ DEFAULT_FETCH_OPTIONS "posts"
        (.ok (some 0)) ⟨[("app:v1:posts", ⟨some 7, none⟩)], []⟩ [] 0).calls =
      [.get (getFullKey (⟨"app", "v1", false⟩ : CacheHandlerOptions).pfx
        (⟨"app", "v1", false⟩ : CacheHandlerOptions).version "posts")] ∧
      ∀ k, BackendCall.lock k ∉
        (fetch (memB Nat String) id ⟨"app", "v1", false⟩ DEFAULT_FETCH_OPTIONS "posts"
          (.ok (some 0)) ⟨[("app:v1:posts", ⟨some 7, none⟩)], []⟩ [] 0).calls) :=
  ⟨⟨rfl, by decide⟩,
    fetch_hit_serves_cache id ⟨"app", "v1", false⟩ DEFAULT_FETCH_OPTIONS "posts"
      (.ok (some 0)) ⟨[("app:v1:posts", ⟨some 7, none⟩)], []⟩ [] 0 7 rfl (by decide)⟩

end NextCachex
